import Mathlib

/-!
# Verification of the diagen connector-routing engine

A shallow embedding of the routing engine of the diagen repository:
the shared geometry helpers (Point, Rect, segment/rectangle intersection),
the router utilities (grid snapping, bounds, path simplification, route
cost, route validity), the binary min-heap, the A* grid-search router,
the heuristic orthogonal router and the hybrid orchestrator.

Modelling conventions:
* JS numbers are modelled as exact rationals (ℚ) wherever the source only
  adds, multiplies, compares, floors or rounds them, and as reals (ℝ)
  where the source takes square roots (Euclidean lengths, route costs).
  IEEE-specific behaviour (NaN / Infinity from division by a zero
  `gridSize`) is outside the model; the degenerate configurations where it
  would arise are noted at the definitions concerned.
* Mutable state (the A* open heap, node map and closed set) is passed
  explicitly.  The JS heap stores object references whose scores mutate
  under relaxation; this is modelled by a heap of node keys scored
  through the current node map, which preserves the aliasing behaviour
  because a map entry is created once per key and then only updated.
* The `while` loop of the A* search is bounded by `maxIterations` in the
  source; it is embedded as structural recursion on that very bound.
-/

set_option maxHeartbeats 4000000
set_option maxRecDepth 100000

/-- A location in canvas units (source: shared geometry, `Point`). -/
structure Point where
  x : ℚ
  y : ℚ
deriving DecidableEq, Repr

/-- An axis-aligned rectangle (source: shared geometry, `Rect`). -/
structure Rect where
  x : ℚ
  y : ℚ
  w : ℚ
  h : ℚ
deriving DecidableEq, Repr

/-- A keep-out zone (source: router `types.ts`, `Obstacle`). -/
structure Obstacle where
  id : String
  bounds : Rect
  padding : ℚ
deriving DecidableEq, Repr

/-- Tunable router parameters (source: router `types.ts`, `RouterConfig`).
`maxIterations` is an integer count in the source and is modelled as ℕ. -/
structure RouterConfig where
  gridSize : ℚ
  padding : ℚ
  maxIterations : ℕ
  diagonalCost : ℚ
  orthogonalCost : ℚ

/-- The routing result (source: router `types.ts`, `RouteResult`).
`cost` is real-valued because orthogonal route costs involve square
roots. -/
structure RouteResult where
  points : List Point
  success : Bool
  cost : Option ℝ

/-- Source: `expandRect` — grows a rectangle by `padding` on each side. -/
def expandRect (rect : Rect) (padding : ℚ) : Rect :=
  ⟨rect.x - padding, rect.y - padding, rect.w + padding * 2, rect.h + padding * 2⟩

/-- Source: `isPointInRect`. -/
def isPointInRect (point : Point) (rect : Rect) : Bool :=
  decide (rect.x ≤ point.x ∧ point.x ≤ rect.x + rect.w ∧
    rect.y ≤ point.y ∧ point.y ≤ rect.y + rect.h)

/-- Source: `direction` in the shared geometry — the cross product used by
the segment-intersection test. -/
def direction (pi pj pk : Point) : ℚ :=
  (pk.x - pi.x) * (pj.y - pi.y) - (pj.x - pi.x) * (pk.y - pi.y)

/-- Source: `onSegment` — bounding-box membership of `pk` for the segment
`pi`–`pj`, used in the collinear fallbacks of `lineIntersectsLine`. -/
def onSegment (pi pj pk : Point) : Bool :=
  decide (min pi.x pj.x ≤ pk.x ∧ pk.x ≤ max pi.x pj.x ∧
    min pi.y pj.y ≤ pk.y ∧ pk.y ≤ max pi.y pj.y)

/-- Source: `lineIntersectsLine` — classical orientation test with
collinear fallbacks. -/
def lineIntersectsLine (p1 p2 p3 p4 : Point) : Bool :=
  let d1 := direction p3 p4 p1
  let d2 := direction p3 p4 p2
  let d3 := direction p1 p2 p3
  let d4 := direction p1 p2 p4
  (decide (((d1 > 0 ∧ d2 < 0) ∨ (d1 < 0 ∧ d2 > 0)) ∧
      ((d3 > 0 ∧ d4 < 0) ∨ (d3 < 0 ∧ d4 > 0)))) ||
    (decide (d1 = 0) && onSegment p3 p4 p1) ||
    (decide (d2 = 0) && onSegment p3 p4 p2) ||
    (decide (d3 = 0) && onSegment p1 p2 p3) ||
    (decide (d4 = 0) && onSegment p1 p2 p4)

/-- Source: `lineIntersectsRect` — endpoint-in-rect short circuits plus
the four rectangle edges. -/
def lineIntersectsRect (p1 p2 : Point) (rect : Rect) : Bool :=
  if isPointInRect p1 rect || isPointInRect p2 rect then true
  else
    let left := rect.x
    let right := rect.x + rect.w
    let top := rect.y
    let bottom := rect.y + rect.h
    lineIntersectsLine p1 p2 ⟨left, top⟩ ⟨right, top⟩ ||
      lineIntersectsLine p1 p2 ⟨right, top⟩ ⟨right, bottom⟩ ||
      lineIntersectsLine p1 p2 ⟨right, bottom⟩ ⟨left, bottom⟩ ||
      lineIntersectsLine p1 p2 ⟨left, bottom⟩ ⟨left, top⟩

/-- Source: `manhattanDistance`. -/
def manhattanDistance (p1 p2 : Point) : ℚ :=
  |p2.x - p1.x| + |p2.y - p1.y|

/-- Source: `snapToGrid` — rounds to the nearest multiple of `gridSize`
(JS `Math.round` rounds half up, as does `round` on ℚ).  With
`gridSize = 0` the source would produce NaN; the model yields `0`. -/
def snapToGrid (value gridSize : ℚ) : ℚ :=
  (round (value / gridSize) : ℤ) * gridSize

/-- Source: `euclideanDistance` in the router utils. -/
noncomputable def euclideanDistance (p1 p2 : Point) : ℝ :=
  Real.sqrt (((p2.x - p1.x) * (p2.x - p1.x) + (p2.y - p1.y) * (p2.y - p1.y) : ℚ) : ℝ)

/-- The horizontal/vertical classification used by `getBendCount` and
`simplifyOrthogonalPath`: a step is vertical iff the x coordinates agree. -/
inductive SegDir where
  | h
  | v
deriving DecidableEq, Repr

/-- The direction label `curr.x === prev.x ? 'v' : 'h'` from the source. -/
def dirLabel (prev curr : Point) : SegDir :=
  if curr.x = prev.x then .v else .h

/-- Source: `getBendCount` — counts interior points where the direction
label changes. -/
def getBendCount : List Point → ℕ
  | p :: c :: n :: rest =>
    (if dirLabel p c ≠ dirLabel c n then 1 else 0) + getBendCount (c :: n :: rest)
  | _ => 0

/-- Source: `calculatePathLength` — sum of Euclidean segment lengths. -/
noncomputable def calculatePathLength : List Point → ℝ
  | p :: q :: rest => euclideanDistance p q + calculatePathLength (q :: rest)
  | _ => 0

/-- Source: `calculateRouteCost` — length plus bend count times penalty. -/
noncomputable def calculateRouteCost (route : List Point) (bendCost : ℚ := 10) : ℝ :=
  calculatePathLength route + (getBendCount route : ℝ) * (bendCost : ℝ)

/-- The loop body of `simplifyOrthogonalPath`: `prev` is the last kept
point, the list holds the not-yet-processed tail ending in the final
point, which is always kept. -/
def simplifyGo (prev : Point) : List Point → List Point
  | [] => []
  | [x] => [x]
  | c :: n :: rest =>
    if dirLabel prev c ≠ dirLabel c n then c :: simplifyGo c (n :: rest)
    else simplifyGo prev (n :: rest)

/-- Source: `simplifyOrthogonalPath` — drops interior points whose
incoming (from the last kept point) and outgoing direction labels
coincide; paths of length ≤ 2 are returned unchanged. -/
def simplifyOrthogonalPath : List Point → List Point
  | [] => []
  | [a] => [a]
  | [a, b] => [a, b]
  | p0 :: c :: n :: rest => p0 :: simplifyGo p0 (c :: n :: rest)

/-- Source: `calculateBounds` — union of the endpoint box and padded
obstacle boxes, inflated by `expand` on all sides. -/
def calculateBounds (f t : Point) (obstacles : List Obstacle) (padding : ℚ)
    (expand : ℚ := 100) : Rect :=
  let minX := obstacles.foldl (fun acc o => min acc (o.bounds.x - padding)) (min f.x t.x)
  let minY := obstacles.foldl (fun acc o => min acc (o.bounds.y - padding)) (min f.y t.y)
  let maxX := obstacles.foldl (fun acc o => max acc (o.bounds.x + o.bounds.w + padding))
    (max f.x t.x)
  let maxY := obstacles.foldl (fun acc o => max acc (o.bounds.y + o.bounds.h + padding))
    (max f.y t.y)
  ⟨minX - expand, minY - expand, maxX - minX + expand * 2, maxY - minY + expand * 2⟩

/-- Source: `isPointInAnyObstacle` — membership in some padded obstacle
rectangle. -/
def isPointInAnyObstacle (point : Point) (obstacles : List Obstacle) : Bool :=
  obstacles.any fun o => isPointInRect point (expandRect o.bounds o.padding)

/-- Source: `isRouteValid` — no consecutive segment of the polyline may
intersect any padded obstacle rectangle. -/
def isRouteValid : List Point → List Obstacle → Bool
  | p :: q :: rest, obstacles =>
    (obstacles.all fun o => !lineIntersectsRect p q (expandRect o.bounds o.padding)) &&
      isRouteValid (q :: rest) obstacles
  | _, _ => true

/-! ## Binary min-heap (source: `createMinHeap`)

The JS heap is an array with closure-captured operations; it is embedded
as a list state with `heapPush` / `heapPop` / `heapPeek` parameterised by
the scoring function.  `listSwap` models the destructuring swap. -/

variable {α : Type}

/-- The parent index `(i - 1) / 2` of the array-backed binary tree. -/
def parentIdx (i : ℕ) : ℕ := (i - 1) / 2

/-- The destructuring swap of two array slots. -/
def listSwap [Inhabited α] (l : List α) (i j : ℕ) : List α :=
  (l.set i (l.getD j default)).set j (l.getD i default)

/-- The loop of `bubbleUp`, made structurally recursive on a fuel that
bounds the number of swaps; the index strictly decreases at every swap,
so a fuel equal to the starting index never runs out. -/
def bubbleUpAux [Inhabited α] (score : α → ℚ) : ℕ → List α → ℕ → List α
  | _, l, 0 => l
  | 0, l, _ + 1 => l
  | fuel + 1, l, i + 1 =>
    if score (l.getD (parentIdx (i + 1)) default) ≤ score (l.getD (i + 1) default) then l
    else bubbleUpAux score fuel (listSwap l (i + 1) (parentIdx (i + 1))) (parentIdx (i + 1))

/-- Source: `bubbleUp` — swaps the item at the given index with its parent
while it scores strictly below it. -/
def bubbleUp [Inhabited α] (score : α → ℚ) (l : List α) (i : ℕ) : List α :=
  bubbleUpAux score i l i

/-- The loop of `bubbleDown`, made structurally recursive on a fuel that
bounds the number of swaps; the index strictly increases while staying
below the length, so a fuel equal to the array length never runs out.
The nested conditionals are the case expansion of the source's
`smallest` computation. -/
def bubbleDownAux [Inhabited α] (score : α → ℚ) : ℕ → List α → ℕ → List α
  | 0, l, _ => l
  | fuel + 1, l, i =>
    if 2 * i + 1 < l.length ∧
        score (l.getD (2 * i + 1) default) < score (l.getD i default) then
      if 2 * i + 2 < l.length ∧
          score (l.getD (2 * i + 2) default) < score (l.getD (2 * i + 1) default) then
        bubbleDownAux score fuel (listSwap l i (2 * i + 2)) (2 * i + 2)
      else
        bubbleDownAux score fuel (listSwap l i (2 * i + 1)) (2 * i + 1)
    else
      if 2 * i + 2 < l.length ∧
          score (l.getD (2 * i + 2) default) < score (l.getD i default) then
        bubbleDownAux score fuel (listSwap l i (2 * i + 2)) (2 * i + 2)
      else l

/-- Source: `bubbleDown` — sinks the item at the given index below its
smaller children until both children score at least as much. -/
def bubbleDown [Inhabited α] (score : α → ℚ) (l : List α) (i : ℕ) : List α :=
  bubbleDownAux score l.length l i

/-- Source: `push` — append then bubble up from the last slot. -/
def heapPush [Inhabited α] (score : α → ℚ) (l : List α) (item : α) : List α :=
  bubbleUp score (l ++ [item]) l.length

/-- Source: `pop` — return the root, move the last element to the root
and bubble it down; returns nothing on an empty heap. -/
def heapPop [Inhabited α] (score : α → ℚ) : List α → Option α × List α
  | [] => (none, [])
  | [x] => (some x, [])
  | x :: y :: rest =>
    let bottom := (x :: y :: rest).getLast (by simp)
    (some x, bubbleDown score (((x :: y :: rest).dropLast).set 0 bottom) 0)

/-- Source: `peek` — the root without removal. -/
def heapPeek (l : List α) : Option α := l.head?

/-- One client-visible heap operation. -/
inductive HeapOp (α : Type) where
  | push (item : α)
  | pop

/-- Apply one operation to the heap state. -/
def applyHeapOp [Inhabited α] (score : α → ℚ) (l : List α) : HeapOp α → List α
  | .push a => heapPush score l a
  | .pop => (heapPop score l).2

/-- The heap state reached from `createMinHeap` by a sequence of
operations. -/
def runHeapOps [Inhabited α] (score : α → ℚ) (ops : List (HeapOp α)) : List α :=
  ops.foldl (applyHeapOp score) []

/-- The number of items a client has pushed and not yet popped (a pop on
an empty heap stores and removes nothing). -/
def storedCount : List (HeapOp α) → ℕ :=
  List.foldl (fun n op => match op with | .push _ => n + 1 | .pop => n - 1) 0

/-- The binary-heap order property of the array. -/
def IsHeap [Inhabited α] (score : α → ℚ) (l : List α) : Prop :=
  ∀ i, 0 < i → i < l.length →
    score (l.getD (parentIdx i) default) ≤ score (l.getD i default)

/-! ### List access lemmas for the heap proofs -/

theorem getD_set_self [Inhabited α] (l : List α) (i : ℕ) (h : i < l.length) (b : α) :
    (l.set i b).getD i default = b := by
  show ((l.set i b).get? i).getD default = b
  rw [List.get?_set_eq_of_lt b h]
  rfl

theorem getD_set_ne [Inhabited α] (l : List α) (i j : ℕ) (h : i ≠ j) (b : α) :
    (l.set i b).getD j default = l.getD j default := by
  show ((l.set i b).get? j).getD default = (l.get? j).getD default
  rw [List.get?_set_ne b l h]

theorem listSwap_length [Inhabited α] (l : List α) (i j : ℕ) :
    (listSwap l i j).length = l.length := by
  simp [listSwap]

theorem getD_listSwap_left [Inhabited α] (l : List α) (i j : ℕ)
    (hi : i < l.length) (hj : j < l.length) :
    (listSwap l i j).getD i default = l.getD j default := by
  unfold listSwap
  rcases eq_or_ne j i with rfl | hne
  · rw [getD_set_self _ _ (by simpa using hi)]
  · rw [getD_set_ne _ _ _ hne, getD_set_self _ _ hi]

theorem getD_listSwap_right [Inhabited α] (l : List α) (i j : ℕ)
    (hi : i < l.length) (hj : j < l.length) :
    (listSwap l i j).getD j default = l.getD i default := by
  unfold listSwap
  rw [getD_set_self _ _ (by simpa using hj)]

theorem getD_listSwap_other [Inhabited α] (l : List α) (i j k : ℕ)
    (hki : k ≠ i) (hkj : k ≠ j) :
    (listSwap l i j).getD k default = l.getD k default := by
  unfold listSwap
  rw [getD_set_ne _ _ _ (Ne.symm hkj), getD_set_ne _ _ _ (Ne.symm hki)]

theorem getD_cons_perm [Inhabited α] (xs : List α) (k : ℕ) (hk : k < xs.length) (x : α) :
    List.Perm (xs.getD k default :: xs.set k x) (x :: xs) := by
  induction xs generalizing k with
  | nil => simp at hk
  | cons y ys ih =>
    cases k with
    | zero =>
      simp only [List.getD_cons_zero, List.set_cons_zero]
      exact List.Perm.swap x y ys
    | succ k =>
      simp only [List.getD_cons_succ, List.set_cons_succ]
      exact (List.Perm.swap y (ys.getD k default) (ys.set k x)).trans
        (((ih k (by simpa using hk)).cons y).trans (List.Perm.swap x y ys))

theorem set_getD_self [Inhabited α] (l : List α) (i : ℕ) :
    l.set i (l.getD i default) = l := by
  induction l generalizing i with
  | nil => simp
  | cons x xs ih =>
    cases i with
    | zero => simp [List.getD_cons_zero]
    | succ k =>
      have hstep : (x :: xs).getD (k + 1) default = xs.getD k default := by
        simp [List.getD_cons_succ]
      rw [hstep, List.set_cons_succ, ih]

theorem listSwap_perm [Inhabited α] (l : List α) (i j : ℕ)
    (hi : i < l.length) (hj : j < l.length) :
    List.Perm (listSwap l i j) l := by
  induction l generalizing i j with
  | nil => simp at hi
  | cons x xs ih =>
    cases i with
    | zero =>
      cases j with
      | zero =>
        unfold listSwap
        simp only [List.getD_cons_zero, List.set_cons_zero]
        exact List.Perm.refl _
      | succ k =>
        unfold listSwap
        simp only [List.getD_cons_zero, List.getD_cons_succ, List.set_cons_zero,
          List.set_cons_succ]
        exact getD_cons_perm xs k (by simpa using hj) x
    | succ m =>
      cases j with
      | zero =>
        unfold listSwap
        simp only [List.getD_cons_zero, List.getD_cons_succ, List.set_cons_zero,
          List.set_cons_succ]
        exact getD_cons_perm xs m (by simpa using hi) x
      | succ k =>
        unfold listSwap
        simp only [List.getD_cons_succ, List.set_cons_succ]
        exact (ih m k (by simpa using hi) (by simpa using hj)).cons x

theorem getD_append_left [Inhabited α] (l : List α) (x : α) (j : ℕ) (h : j < l.length) :
    (l ++ [x]).getD j default = l.getD j default := by
  show ((l ++ [x]).get? j).getD default = _
  rw [List.get?_append h]
  rfl

theorem getD_dropLast [Inhabited α] (l : List α) (j : ℕ) (h : j < l.length - 1) :
    (l.dropLast).getD j default = l.getD j default := by
  have h1 : j < l.dropLast.length := by simp; omega
  have h2 : j < l.length := by omega
  rw [List.getD_eq_getElem _ _ h1, List.getD_eq_getElem _ _ h2, List.getElem_dropLast]

theorem parentIdx_lt (i : ℕ) (h : 0 < i) : parentIdx i < i := by
  unfold parentIdx; omega

theorem parentIdx_children (i j : ℕ) (h : parentIdx j = i) (h0 : 0 < j) :
    j = 2 * i + 1 ∨ j = 2 * i + 2 := by
  unfold parentIdx at h; omega

theorem parentIdx_left (i : ℕ) : parentIdx (2 * i + 1) = i := by
  unfold parentIdx; omega

theorem parentIdx_right (i : ℕ) : parentIdx (2 * i + 2) = i := by
  unfold parentIdx; omega

/-- The root of a heap-ordered array scores at most every entry. -/
theorem heap_root_min [Inhabited α] (score : α → ℚ) (l : List α) (hl : IsHeap score l) :
    ∀ i, i < l.length → score (l.getD 0 default) ≤ score (l.getD i default) := by
  intro i
  induction i using Nat.strong_induction_on with
  | _ i ih =>
    intro hi
    rcases Nat.eq_zero_or_pos i with rfl | hpos
    · exact le_refl _
    · exact le_trans
        (ih (parentIdx i) (parentIdx_lt i hpos) (lt_trans (parentIdx_lt i hpos) hi))
        (hl i hpos hi)

/-- Heap order everywhere except possibly on the edge into slot `i`, plus:
the children of `i` score at least the parent of `i`. -/
def AlmostHeapUp [Inhabited α] (score : α → ℚ) (l : List α) (i : ℕ) : Prop :=
  (∀ j, 0 < j → j < l.length → j ≠ i →
    score (l.getD (parentIdx j) default) ≤ score (l.getD j default)) ∧
  (∀ c, c < l.length → parentIdx c = i → 0 < i →
    score (l.getD (parentIdx i) default) ≤ score (l.getD c default))

theorem bubbleUpAux_perm [Inhabited α] (score : α → ℚ) (fuel : ℕ) :
    ∀ (l : List α) (i : ℕ), i < l.length → i ≤ fuel →
      List.Perm (bubbleUpAux score fuel l i) l := by
  induction fuel with
  | zero =>
    intro l i hi hif
    have hi0 : i = 0 := by omega
    subst hi0
    rw [bubbleUpAux]
  | succ fuel ih =>
    intro l i hi hif
    match i with
    | 0 => rw [bubbleUpAux]
    | i + 1 =>
      rw [bubbleUpAux]
      split
      · exact List.Perm.refl _
      · have hp : parentIdx (i + 1) < i + 1 := parentIdx_lt _ (by omega)
        exact (ih _ (parentIdx (i + 1)) (by rw [listSwap_length]; omega) (by omega)).trans
          (listSwap_perm l (i + 1) (parentIdx (i + 1)) hi (by omega))

theorem bubbleUp_perm [Inhabited α] (score : α → ℚ) (l : List α) (i : ℕ) :
    i < l.length → List.Perm (bubbleUp score l i) l := fun hi =>
  bubbleUpAux_perm score i l i hi (le_refl i)

theorem bubbleUpAux_isHeap [Inhabited α] (score : α → ℚ) (fuel : ℕ) :
    ∀ (l : List α) (i : ℕ), i < l.length → i ≤ fuel →
      AlmostHeapUp score l i → IsHeap score (bubbleUpAux score fuel l i) := by
  induction fuel with
  | zero =>
    intro l i hi hif hal
    have hi0 : i = 0 := by omega
    subst hi0
    rw [bubbleUpAux]
    intro j hj hjl
    exact hal.1 j hj hjl (by omega)
  | succ fuel ih =>
    intro l i hi hif hal
    match i with
    | 0 =>
      rw [bubbleUpAux]
      intro j hj hjl
      exact hal.1 j hj hjl (by omega)
    | i + 1 =>
      rw [bubbleUpAux]
      split
      · rename_i hc
        intro j hj hjl
        rcases eq_or_ne j (i + 1) with rfl | hne
        · exact hc
        · exact hal.1 j hj hjl hne
      · rename_i hc
        have hlt : score (l.getD (i + 1) default) <
            score (l.getD (parentIdx (i + 1)) default) := lt_of_not_le hc
        have hp : parentIdx (i + 1) < i + 1 := parentIdx_lt _ (by omega)
        have hpl : parentIdx (i + 1) < l.length := lt_trans hp hi
        apply ih _ (parentIdx (i + 1)) (by rw [listSwap_length]; exact hpl) (by omega)
        constructor
        · intro j hj hjl hjp
          rw [listSwap_length] at hjl
          rcases eq_or_ne j (i + 1) with rfl | hji
          · rw [show parentIdx (i + 1) = parentIdx (i + 1) from rfl,
              getD_listSwap_right l (i + 1) (parentIdx (i + 1)) hi hpl,
              getD_listSwap_left l (i + 1) (parentIdx (i + 1)) hi hpl]
            exact le_of_lt hlt
          · rcases eq_or_ne (parentIdx j) (i + 1) with hpj | hpj
            · rw [hpj, getD_listSwap_left l (i + 1) (parentIdx (i + 1)) hi hpl,
                getD_listSwap_other l (i + 1) (parentIdx (i + 1)) j hji hjp]
              exact hal.2 j hjl hpj (by omega)
            · rcases eq_or_ne (parentIdx j) (parentIdx (i + 1)) with hpj2 | hpj2
              · rw [hpj2, getD_listSwap_right l (i + 1) (parentIdx (i + 1)) hi hpl,
                  getD_listSwap_other l (i + 1) (parentIdx (i + 1)) j hji hjp]
                have hbase := hal.1 j hj hjl hji
                rw [hpj2] at hbase
                exact le_trans (le_of_lt hlt) hbase
              · rw [getD_listSwap_other l (i + 1) (parentIdx (i + 1)) (parentIdx j) hpj hpj2,
                  getD_listSwap_other l (i + 1) (parentIdx (i + 1)) j hji hjp]
                exact hal.1 j hj hjl hji
        · intro c hc2 hpc hpp
          rw [listSwap_length] at hc2
          have hgp_lt : parentIdx (parentIdx (i + 1)) < parentIdx (i + 1) := parentIdx_lt _ hpp
          have hgp1 : parentIdx (parentIdx (i + 1)) ≠ i + 1 := by omega
          have hgp2 : parentIdx (parentIdx (i + 1)) ≠ parentIdx (i + 1) := by omega
          rw [getD_listSwap_other l (i + 1) (parentIdx (i + 1)) _ hgp1 hgp2]
          rcases eq_or_ne c (i + 1) with rfl | hci
          · rw [getD_listSwap_left l (i + 1) (parentIdx (i + 1)) hi hpl]
            exact hal.1 (parentIdx (i + 1)) hpp hpl (by omega)
          · have hcp : c ≠ parentIdx (i + 1) := by
              intro hcon
              rw [hcon] at hpc
              unfold parentIdx at hpc hpp
              omega
            rw [getD_listSwap_other l (i + 1) (parentIdx (i + 1)) c hci hcp]
            have hc0 : 0 < c := by
              rcases Nat.eq_zero_or_pos c with rfl | hc0
              · exfalso
                unfold parentIdx at hpc hpp
                omega
              · exact hc0
            have h1 : score (l.getD (parentIdx (parentIdx (i + 1))) default) ≤
                score (l.getD (parentIdx (i + 1)) default) :=
              hal.1 (parentIdx (i + 1)) hpp hpl (by omega)
            have h2 : score (l.getD (parentIdx (i + 1)) default) ≤
                score (l.getD c default) := by
              have hbase := hal.1 c hc0 hc2 hci
              rwa [hpc] at hbase
            exact le_trans h1 h2

theorem bubbleUp_isHeap [Inhabited α] (score : α → ℚ) (l : List α) (i : ℕ) :
    i < l.length → AlmostHeapUp score l i → IsHeap score (bubbleUp score l i) :=
  fun hi hal => bubbleUpAux_isHeap score i l i hi (le_refl i) hal

/-- Heap order everywhere except possibly on the edges out of slot `i`,
plus: the children of `i` score at least the parent of `i`. -/
def AlmostHeapDown [Inhabited α] (score : α → ℚ) (l : List α) (i : ℕ) : Prop :=
  (∀ j, 0 < j → j < l.length → parentIdx j ≠ i →
    score (l.getD (parentIdx j) default) ≤ score (l.getD j default)) ∧
  (∀ c, c < l.length → parentIdx c = i → 0 < i →
    score (l.getD (parentIdx i) default) ≤ score (l.getD c default))

/-- The invariant transfer for one sinking swap: the hole moves from `i`
to the strictly smaller child `s`. -/
theorem almostHeapDown_step [Inhabited α] (score : α → ℚ) (l : List α) (i s : ℕ)
    (hi : i < l.length) (hs : s < l.length) (hps : parentIdx s = i) (hsi : i < s)
    (hmin_i : score (l.getD s default) < score (l.getD i default))
    (hmin_sib : ∀ t, 0 < t → t < l.length → parentIdx t = i →
      score (l.getD s default) ≤ score (l.getD t default))
    (hal : AlmostHeapDown score l i) :
    AlmostHeapDown score (listSwap l i s) s := by
  have hsi' : s ≠ i := by omega
  constructor
  · intro j hj hjl hpjs
    rw [listSwap_length] at hjl
    rcases eq_or_ne j s with rfl | hjs
    · rw [hps, getD_listSwap_left l i j hi hs, getD_listSwap_right l i j hi hs]
      exact le_of_lt hmin_i
    · rcases eq_or_ne (parentIdx j) i with hpj | hpj
      · have hji : j ≠ i := by
          unfold parentIdx at hpj
          omega
        rw [hpj, getD_listSwap_left l i s hi hs, getD_listSwap_other l i s j hji hjs]
        exact hmin_sib j hj hjl hpj
      · rcases eq_or_ne j i with rfl | hji
        · have hpi_lt : parentIdx j < j := parentIdx_lt j hj
          have hpi_ne_s : parentIdx j ≠ s := by omega
          rw [getD_listSwap_other l j s _ (by omega) hpi_ne_s,
            getD_listSwap_left l j s hi hs]
          exact hal.2 s hs hps hj
        · have hpj_ne_s : parentIdx j ≠ s := hpjs
          rw [getD_listSwap_other l i s _ hpj hpj_ne_s,
            getD_listSwap_other l i s j hji hjs]
          exact hal.1 j hj hjl hpj
  · intro c hc hpc hs0
    rw [listSwap_length] at hc
    have hc0 : 0 < c := by
      rcases Nat.eq_zero_or_pos c with rfl | hc0
      · exfalso
        unfold parentIdx at hpc
        omega
      · exact hc0
    have hcs : s < c := by
      have := parentIdx_lt c hc0
      omega
    rw [hps, getD_listSwap_left l i s hi hs,
      getD_listSwap_other l i s c (by omega) (by omega)]
    have hbase := hal.1 c hc0 hc (by rw [hpc]; omega)
    rwa [hpc] at hbase

theorem bubbleDownAux_perm [Inhabited α] (score : α → ℚ) (fuel : ℕ) :
    ∀ (l : List α) (i : ℕ), i < l.length → l.length ≤ fuel + i →
      List.Perm (bubbleDownAux score fuel l i) l := by
  induction fuel with
  | zero =>
    intro l i hi hif
    exfalso
    omega
  | succ fuel ih =>
    intro l i hi hif
    rw [bubbleDownAux]
    split
    · rename_i h1
      split
      · rename_i h2
        exact (ih _ (2 * i + 2) (by rw [listSwap_length]; exact h2.1)
          (by rw [listSwap_length]; omega)).trans
          (listSwap_perm l i (2 * i + 2) hi h2.1)
      · exact (ih _ (2 * i + 1) (by rw [listSwap_length]; exact h1.1)
          (by rw [listSwap_length]; omega)).trans
          (listSwap_perm l i (2 * i + 1) hi h1.1)
    · split
      · rename_i h2
        exact (ih _ (2 * i + 2) (by rw [listSwap_length]; exact h2.1)
          (by rw [listSwap_length]; omega)).trans
          (listSwap_perm l i (2 * i + 2) hi h2.1)
      · exact List.Perm.refl _

theorem bubbleDown_perm [Inhabited α] (score : α → ℚ) (l : List α) (i : ℕ) :
    i < l.length → List.Perm (bubbleDown score l i) l := fun hi =>
  bubbleDownAux_perm score l.length l i hi (by omega)

theorem bubbleDownAux_isHeap [Inhabited α] (score : α → ℚ) (fuel : ℕ) :
    ∀ (l : List α) (i : ℕ), i < l.length → l.length ≤ fuel + i →
      AlmostHeapDown score l i → IsHeap score (bubbleDownAux score fuel l i) := by
  induction fuel with
  | zero =>
    intro l i hi hif hal
    exfalso
    omega
  | succ fuel ih =>
    intro l i hi hif hal
    rw [bubbleDownAux]
    split
    · rename_i h1
      split
      · rename_i h2
        apply ih _ (2 * i + 2) (by rw [listSwap_length]; exact h2.1)
          (by rw [listSwap_length]; omega)
        apply almostHeapDown_step score l i (2 * i + 2) hi h2.1 (parentIdx_right i)
          (by omega) (lt_trans h2.2 h1.2)
        · intro t ht0 htl hpt
          rcases parentIdx_children i t hpt ht0 with rfl | rfl
          · exact le_of_lt h2.2
          · exact le_refl _
        · exact hal
      · rename_i h2
        apply ih _ (2 * i + 1) (by rw [listSwap_length]; exact h1.1)
          (by rw [listSwap_length]; omega)
        apply almostHeapDown_step score l i (2 * i + 1) hi h1.1 (parentIdx_left i)
          (by omega) h1.2
        · intro t ht0 htl hpt
          rcases parentIdx_children i t hpt ht0 with rfl | rfl
          · exact le_refl _
          · by_contra hcon
            exact h2 ⟨htl, lt_of_not_le fun hx => hcon hx⟩
        · exact hal
    · rename_i h1
      split
      · rename_i h2
        apply ih _ (2 * i + 2) (by rw [listSwap_length]; exact h2.1)
          (by rw [listSwap_length]; omega)
        apply almostHeapDown_step score l i (2 * i + 2) hi h2.1 (parentIdx_right i)
          (by omega) h2.2
        · intro t ht0 htl hpt
          rcases parentIdx_children i t hpt ht0 with rfl | rfl
          · have hle : score (l.getD i default) ≤ score (l.getD (2 * i + 1) default) := by
              by_contra hcon
              exact h1 ⟨htl, lt_of_not_le fun hx => hcon hx⟩
            exact le_trans (le_of_lt h2.2) hle
          · exact le_refl _
        · exact hal
      · rename_i h2
        intro j hj hjl
        rcases eq_or_ne (parentIdx j) i with hpj | hpj
        · rcases parentIdx_children i j hpj hj with rfl | rfl
          · rw [hpj]
            by_contra hcon
            exact h1 ⟨hjl, lt_of_not_le fun hx => hcon hx⟩
          · rw [hpj]
            by_contra hcon
            exact h2 ⟨hjl, lt_of_not_le fun hx => hcon hx⟩
        · exact hal.1 j hj hjl hpj

theorem bubbleDown_isHeap [Inhabited α] (score : α → ℚ) (l : List α) (i : ℕ) :
    i < l.length → AlmostHeapDown score l i → IsHeap score (bubbleDown score l i) :=
  fun hi hal => bubbleDownAux_isHeap score l.length l i hi (by omega) hal

theorem heapPush_perm [Inhabited α] (score : α → ℚ) (l : List α) (x : α) :
    List.Perm (heapPush score l x) (x :: l) := by
  unfold heapPush
  exact (bubbleUp_perm score (l ++ [x]) l.length (by simp)).trans
    List.perm_append_comm

theorem heapPush_isHeap [Inhabited α] (score : α → ℚ) (l : List α) (x : α)
    (hl : IsHeap score l) : IsHeap score (heapPush score l x) := by
  apply bubbleUp_isHeap score (l ++ [x]) l.length (by simp)
  constructor
  · intro j hj hjl hjne
    have hjlen : j < l.length := by
      simp only [List.length_append, List.length_singleton] at hjl
      omega
    have hplen : parentIdx j < l.length := lt_trans (parentIdx_lt j hj) hjlen
    rw [getD_append_left l x j hjlen, getD_append_left l x _ hplen]
    exact hl j hj hjlen
  · intro c hc hpc hpos
    exfalso
    unfold parentIdx at hpc
    simp only [List.length_append, List.length_singleton] at hc
    omega

theorem heapPop_fst_none_iff [Inhabited α] (score : α → ℚ) (l : List α) :
    (heapPop score l).1 = none ↔ l = [] := by
  match l with
  | [] => simp [heapPop]
  | [x] => simp [heapPop]
  | x :: y :: rest => simp [heapPop]

theorem heapPop_fst_of_ne [Inhabited α] (score : α → ℚ) (l : List α) (h : l ≠ []) :
    (heapPop score l).1 = some (l.getD 0 default) := by
  match l with
  | [x] => simp [heapPop]
  | x :: y :: rest => simp [heapPop]

theorem getLast_cons_dropLast_perm (m : List α) (hm : m ≠ []) :
    List.Perm (m.getLast hm :: m.dropLast) m := by
  conv_rhs => rw [← List.dropLast_append_getLast hm]
  show List.Perm ([m.getLast hm] ++ m.dropLast) (m.dropLast ++ [m.getLast hm])
  exact List.perm_append_comm

theorem heapPop_perm [Inhabited α] (score : α → ℚ) (l : List α) (h : l ≠ []) :
    List.Perm (l.getD 0 default :: (heapPop score l).2) l := by
  match l with
  | [x] => simp [heapPop]
  | x :: y :: rest =>
    show List.Perm (x :: (heapPop score (x :: y :: rest)).2) (x :: y :: rest)
    have hlen : (((x :: y :: rest).dropLast).set 0
        ((x :: y :: rest).getLast (by simp))).length = (y :: rest).length := by
      simp
    have hperm1 : List.Perm (heapPop score (x :: y :: rest)).2
        (((x :: y :: rest).dropLast).set 0 ((x :: y :: rest).getLast (by simp))) := by
      show List.Perm (bubbleDown score _ 0) _
      exact bubbleDown_perm score _ 0 (by rw [hlen]; simp)
    apply List.Perm.cons x
    apply hperm1.trans
    have hshape : ((x :: y :: rest).dropLast).set 0 ((x :: y :: rest).getLast (by simp)) =
        (x :: y :: rest).getLast (by simp) :: (y :: rest).dropLast := by
      simp [List.dropLast_cons₂]
    rw [hshape]
    have hlast : (x :: y :: rest).getLast (by simp) = (y :: rest).getLast (by simp) :=
      List.getLast_cons (by simp)
    rw [hlast]
    exact getLast_cons_dropLast_perm (y :: rest) (by simp)

theorem heapPop_isHeap [Inhabited α] (score : α → ℚ) (l : List α)
    (hl : IsHeap score l) : IsHeap score (heapPop score l).2 := by
  match l with
  | [] =>
    intro j hj hjl
    simp [heapPop] at hjl
  | [x] =>
    intro j hj hjl
    simp [heapPop] at hjl
  | x :: y :: rest =>
    show IsHeap score (bubbleDown score _ 0)
    apply bubbleDown_isHeap score _ 0 (by simp)
    constructor
    · intro j hj hjl hpj
      have hlen : (((x :: y :: rest).dropLast).set 0
          ((x :: y :: rest).getLast (by simp))).length = (x :: y :: rest).length - 1 := by
        simp
      rw [hlen] at hjl
      have hplt : parentIdx j < j := parentIdx_lt j hj
      rw [getD_set_ne _ 0 j (by omega) _, getD_set_ne _ 0 (parentIdx j) (by omega) _,
        getD_dropLast _ j hjl, getD_dropLast _ (parentIdx j) (by omega)]
      exact hl j hj (by omega)
    · intro c hc hpc hpos
      omega

theorem runHeapOps_go_isHeap [Inhabited α] (score : α → ℚ) (ops : List (HeapOp α))
    (l : List α) (hl : IsHeap score l) :
    IsHeap score (ops.foldl (applyHeapOp score) l) := by
  induction ops generalizing l with
  | nil => exact hl
  | cons op rest ih =>
    apply ih
    cases op with
    | push a => exact heapPush_isHeap score l a hl
    | pop => exact heapPop_isHeap score l hl

theorem runHeapOps_isHeap [Inhabited α] (score : α → ℚ) (ops : List (HeapOp α)) :
    IsHeap score (runHeapOps score ops) := by
  apply runHeapOps_go_isHeap
  intro j hj hjl
  simp at hjl

theorem heapPush_length [Inhabited α] (score : α → ℚ) (l : List α) (x : α) :
    (heapPush score l x).length = l.length + 1 := by
  rw [(heapPush_perm score l x).length_eq]
  rfl

theorem heapPop_snd_length [Inhabited α] (score : α → ℚ) (l : List α) :
    (heapPop score l).2.length = l.length - 1 := by
  match l with
  | [] => rfl
  | [x] => rfl
  | x :: y :: rest =>
    have hp := heapPop_perm score (x :: y :: rest) (by simp)
    have := hp.length_eq
    simp only [List.length_cons] at this ⊢
    omega

theorem runHeapOps_length [Inhabited α] (score : α → ℚ) (ops : List (HeapOp α)) :
    (runHeapOps score ops).length = storedCount ops := by
  suffices hgen : ∀ (l : List α) (n : ℕ), l.length = n →
      (ops.foldl (applyHeapOp score) l).length =
        ops.foldl (fun k op => match op with | .push _ => k + 1 | .pop => k - 1) n by
    exact hgen [] 0 rfl
  induction ops with
  | nil => intro l n h; exact h
  | cons op rest ih =>
    intro l n h
    cases op with
    | push a =>
      exact ih (heapPush score l a) (n + 1) (by rw [heapPush_length]; omega)
    | pop =>
      exact ih (heapPop score l).2 (n - 1) (by rw [heapPop_snd_length]; omega)

theorem heap_root_min_members [Inhabited α] (score : α → ℚ) (l : List α)
    (hl : IsHeap score l) (y : α) (hy : y ∈ l) :
    score (l.getD 0 default) ≤ score y := by
  obtain ⟨i, hi, rfl⟩ := List.getElem_of_mem hy
  rw [show l[i] = l.getD i default from (List.getD_eq_getElem l default hi).symm]
  exact heap_root_min score l hl i hi

theorem getD_zero_mem [Inhabited α] (l : List α) (h : l ≠ []) : l.getD 0 default ∈ l := by
  match l with
  | x :: rest => exact List.mem_cons_self x rest

/-- C7.  The priority-queue contract of `createMinHeap`: after any
sequence of push and pop operations, `pop` returns a minimum-score stored
item and removes exactly it (returning nothing iff the heap is empty),
`peek` returns a minimum-score stored item without removing anything, and
`length` equals the number of items currently stored. -/
theorem c7_minheap_contract {α : Type} [Inhabited α] (score : α → ℚ)
    (ops : List (HeapOp α)) :
    ((heapPop score (runHeapOps score ops)).1 = none ↔ runHeapOps score ops = []) ∧
    (∀ m, (heapPop score (runHeapOps score ops)).1 = some m →
      m ∈ runHeapOps score ops ∧
      (∀ y ∈ runHeapOps score ops, score m ≤ score y) ∧
      List.Perm (m :: (heapPop score (runHeapOps score ops)).2) (runHeapOps score ops)) ∧
    (∀ m, heapPeek (runHeapOps score ops) = some m →
      m ∈ runHeapOps score ops ∧ ∀ y ∈ runHeapOps score ops, score m ≤ score y) ∧
    (runHeapOps score ops).length = storedCount ops := by
  have hheap := runHeapOps_isHeap score ops
  refine ⟨heapPop_fst_none_iff score _, ?_, ?_, runHeapOps_length score ops⟩
  · intro m hm
    have hne : runHeapOps score ops ≠ [] := by
      intro hcon
      rw [hcon] at hm
      simp [heapPop] at hm
    have hroot := heapPop_fst_of_ne score _ hne
    rw [hroot] at hm
    obtain rfl : (runHeapOps score ops).getD 0 default = m := by
      injection hm
    exact ⟨getD_zero_mem _ hne, fun y hy => heap_root_min_members score _ hheap y hy,
      heapPop_perm score _ hne⟩
  · intro m hm
    have hne : runHeapOps score ops ≠ [] := by
      intro hcon
      rw [hcon] at hm
      simp [heapPeek] at hm
    obtain rfl : (runHeapOps score ops).getD 0 default = m := by
      unfold heapPeek at hm
      match hstate : runHeapOps score ops, hm with
      | x :: rest, hm2 =>
        simp at hm2
        simp [hm2]
    exact ⟨getD_zero_mem _ hne, fun y hy => heap_root_min_members score _ hheap y hy⟩

/-- The concrete operation sequence used to witness C7. -/
def c7ops : List (HeapOp ℚ) := [.push 3, .push 1, .push 2, .pop]

/-- Witness for C7: on a concrete run, pop returns the minimum 2 of the
stored items, peek agrees, and the length matches the stored count. -/
theorem c7_minheap_contract_witness :
    ((2 : ℚ) ∈ runHeapOps (fun q : ℚ => q) c7ops ∧
      (∀ y ∈ runHeapOps (fun q : ℚ => q) c7ops, (2 : ℚ) ≤ y) ∧
      List.Perm ((2 : ℚ) :: (heapPop (fun q : ℚ => q) (runHeapOps (fun q : ℚ => q) c7ops)).2)
        (runHeapOps (fun q : ℚ => q) c7ops)) ∧
    ((2 : ℚ) ∈ runHeapOps (fun q : ℚ => q) c7ops ∧
      ∀ y ∈ runHeapOps (fun q : ℚ => q) c7ops, (2 : ℚ) ≤ y) ∧
    (runHeapOps (fun q : ℚ => q) c7ops).length = storedCount c7ops :=
  ⟨(c7_minheap_contract (fun q : ℚ => q) c7ops).2.1 2 (by decide),
    (c7_minheap_contract (fun q : ℚ => q) c7ops).2.2.1 2 (by decide),
    (c7_minheap_contract (fun q : ℚ => q) c7ops).2.2.2⟩

/-! ## Path simplification: fixpoint analysis (claim C5) -/

/-- The direction labels of the consecutive steps of a path. -/
def pathDirs : List Point → List SegDir
  | p :: q :: rest => dirLabel p q :: pathDirs (q :: rest)
  | _ => []

/-- Whether adjacent step labels strictly alternate. -/
def alternatingDirs : List SegDir → Bool
  | a :: b :: rest => (decide (a ≠ b)) && alternatingDirs (b :: rest)
  | _ => true

theorem simplifyGo_fixpoint (rest : List Point) :
    ∀ prev, alternatingDirs (pathDirs (prev :: rest)) = true →
      simplifyGo prev rest = rest := by
  induction rest with
  | nil => intro prev _; rfl
  | cons c tail ih =>
    intro prev halt
    match tail with
    | [] => rfl
    | n :: rs =>
      have h1 : dirLabel prev c ≠ dirLabel c n := by
        simp only [pathDirs, alternatingDirs, Bool.and_eq_true, decide_eq_true_eq] at halt
        exact halt.1
      have h2 : alternatingDirs (pathDirs (c :: n :: rs)) = true := by
        simp only [pathDirs, alternatingDirs, Bool.and_eq_true] at halt ⊢
        exact halt.2
      rw [simplifyGo, if_pos h1, ih c h2]

theorem simplify_fixpoint (l : List Point)
    (halt : alternatingDirs (pathDirs l) = true) :
    simplifyOrthogonalPath l = l := by
  match l with
  | [] => rfl
  | [a] => rfl
  | [a, b] => rfl
  | p0 :: c :: n :: rest =>
    rw [simplifyOrthogonalPath, simplifyGo_fixpoint (c :: n :: rest) p0 halt]

/-- C5 (counterexample).  `simplifyOrthogonalPath` is not idempotent: on
the path (0,0),(0,1),(5,2),(0,3) the first pass keeps (0,1) (labels v
then h) but merges the h-labelled steps across (5,2) into a step back to
x = 0, which the second pass then relabels as vertical and removes. -/
theorem c5_simplify_not_idempotent :
    simplifyOrthogonalPath (simplifyOrthogonalPath
        [⟨0, 0⟩, ⟨0, 1⟩, ⟨5, 2⟩, ⟨0, 3⟩]) ≠
      simplifyOrthogonalPath [⟨0, 0⟩, ⟨0, 1⟩, ⟨5, 2⟩, ⟨0, 3⟩] := by
  decide

/-- C5 (amended).  Running `simplifyOrthogonalPath` twice yields the same
result as running it once whenever the once-simplified path has strictly
alternating step labels — which the counterexample path violates because
a merged run of h-labelled steps can return to its starting x. -/
theorem c5_simplify_idempotent_amended (path : List Point)
    (halt : alternatingDirs (pathDirs (simplifyOrthogonalPath path)) = true) :
    simplifyOrthogonalPath (simplifyOrthogonalPath path) = simplifyOrthogonalPath path :=
  simplify_fixpoint (simplifyOrthogonalPath path) halt

/-- Witness for the amended C5 at a concrete path with a redundant
collinear point and a bend. -/
theorem c5_simplify_idempotent_amended_witness :
    alternatingDirs (pathDirs (simplifyOrthogonalPath
        [⟨0, 0⟩, ⟨10, 0⟩, ⟨20, 0⟩, ⟨20, 10⟩, ⟨20, 20⟩])) = true ∧
      simplifyOrthogonalPath (simplifyOrthogonalPath
          [⟨0, 0⟩, ⟨10, 0⟩, ⟨20, 0⟩, ⟨20, 10⟩, ⟨20, 20⟩]) =
        simplifyOrthogonalPath [⟨0, 0⟩, ⟨10, 0⟩, ⟨20, 0⟩, ⟨20, 10⟩, ⟨20, 20⟩] :=
  ⟨by decide, c5_simplify_idempotent_amended _ (by decide)⟩

/-! ## Route cost (claim C8) -/

/-- The number of adjacent label changes in a step-label list. -/
def dirChanges : List SegDir → ℕ
  | a :: b :: rest => (if a ≠ b then 1 else 0) + dirChanges (b :: rest)
  | _ => 0

theorem getBendCount_eq_dirChanges (pts : List Point) :
    getBendCount pts = dirChanges (pathDirs pts) := by
  match pts with
  | [] => rfl
  | [p] => rfl
  | [p, q] => rfl
  | p :: c :: n :: rest =>
    rw [getBendCount, getBendCount_eq_dirChanges (c :: n :: rest)]
    rfl

theorem calculatePathLength_eq_zip_sum (pts : List Point) :
    calculatePathLength pts =
      ((pts.zip pts.tail).map fun pq => euclideanDistance pq.1 pq.2).sum := by
  match pts with
  | [] => simp [calculatePathLength]
  | [p] => simp [calculatePathLength]
  | p :: q :: rest =>
    rw [calculatePathLength, calculatePathLength_eq_zip_sum (q :: rest)]
    simp [List.zip]

theorem euclid_horiz (p q : Point) (hy : p.y = q.y) :
    euclideanDistance p q = |((q.x - p.x : ℚ) : ℝ)| := by
  unfold euclideanDistance
  have h0 : q.y - p.y = 0 := by rw [hy]; ring
  rw [h0]
  have hrw : (((q.x - p.x) * (q.x - p.x) + 0 * 0 : ℚ) : ℝ) =
      (((q.x - p.x : ℚ) : ℝ)) ^ 2 := by
    push_cast
    ring
  rw [hrw, Real.sqrt_sq_eq_abs]

theorem euclid_vert (p q : Point) (hx : p.x = q.x) :
    euclideanDistance p q = |((q.y - p.y : ℚ) : ℝ)| := by
  unfold euclideanDistance
  have h0 : q.x - p.x = 0 := by rw [hx]; ring
  rw [h0]
  have hrw : ((0 * 0 + (q.y - p.y) * (q.y - p.y) : ℚ) : ℝ) =
      (((q.y - p.y : ℚ) : ℝ)) ^ 2 := by
    push_cast
    ring
  rw [hrw, Real.sqrt_sq_eq_abs]

/-- C8.  `calculateRouteCost` is the sum of the Euclidean lengths of the
consecutive segments plus the bend penalty times the number of interior
direction changes; on a 2-point path it is the Euclidean length, on a
3-point path without a bend the sum of the two lengths, and one bend adds
exactly the penalty on top of the segment lengths. -/
theorem c8_route_cost (b : ℚ) :
    (∀ path : List Point, calculateRouteCost path b =
      ((path.zip path.tail).map fun pq => euclideanDistance pq.1 pq.2).sum +
        (dirChanges (pathDirs path) : ℝ) * (b : ℝ)) ∧
    (∀ p q : Point, calculateRouteCost [p, q] b = euclideanDistance p q) ∧
    (∀ p q r : Point, getBendCount [p, q, r] = 0 →
      calculateRouteCost [p, q, r] b = euclideanDistance p q + euclideanDistance q r) ∧
    (∀ p q r : Point, getBendCount [p, q, r] = 1 →
      calculateRouteCost [p, q, r] b =
        euclideanDistance p q + euclideanDistance q r + (b : ℝ)) := by
  refine ⟨?_, ?_, ?_, ?_⟩
  · intro path
    rw [calculateRouteCost, calculatePathLength_eq_zip_sum, getBendCount_eq_dirChanges]
  · intro p q
    rw [calculateRouteCost]
    simp [calculatePathLength, getBendCount]
  · intro p q r hbend
    rw [calculateRouteCost, hbend]
    simp [calculatePathLength]
  · intro p q r hbend
    rw [calculateRouteCost, hbend]
    simp [calculatePathLength]

/-- Witness for C8 at the L-shaped path (0,0),(3,0),(3,4) with penalty 2:
one bend, cost 3 + 4 + 2 = 9. -/
theorem c8_route_cost_witness :
    getBendCount [(⟨0, 0⟩ : Point), ⟨3, 0⟩, ⟨3, 4⟩] = 1 ∧
      calculateRouteCost [(⟨0, 0⟩ : Point), ⟨3, 0⟩, ⟨3, 4⟩] 2 = 9 := by
  refine ⟨by decide, ?_⟩
  rw [(c8_route_cost 2).2.2.2 ⟨0, 0⟩ ⟨3, 0⟩ ⟨3, 4⟩ (by decide)]
  rw [euclid_horiz ⟨0, 0⟩ ⟨3, 0⟩ rfl, euclid_vert ⟨3, 0⟩ ⟨3, 4⟩ rfl]
  norm_num

/-! ## Obstacle projection (claim C9) -/

/-- The geometric props of a shape element (source: `BoxProps` in the
model types; only the box fields are read by the router). -/
structure BoxProps where
  x : ℚ
  y : ℚ
  w : ℚ
  h : ℚ
  angle : ℚ
deriving DecidableEq, Repr

/-- A diagram element (source: `DiagramElement = ShapeElement |
LinkerElement`); only the discriminant, the id and the shape box are
relevant to the router. -/
inductive DiagramElement where
  | shape (id : String) (props : BoxProps)
  | linker (id : String)
deriving DecidableEq, Repr

/-- The `id` field shared by both element kinds. -/
def DiagramElement.eid : DiagramElement → String
  | .shape i _ => i
  | .linker i => i

/-- Modelled from the spec: `isShape` is exported by the model package
but its definition is not among the given sources; per the data model's
discriminated union (`type: 'shape'`) and the spec's wording it holds
exactly of shape elements. -/
def isShape : DiagramElement → Bool
  | .shape _ _ => true
  | .linker _ => false

/-- Source: `createObstacleFromRect`. -/
def createObstacleFromRect (id : String) (rect : Rect) (padding : ℚ := 10) : Obstacle :=
  ⟨id, rect, padding⟩

/-- Source: `createObstaclesFromElements` — skips excluded ids, keeps
shapes, copies the props rectangle, fixed padding 10 (the `excludeIds`
argument defaults to the empty list in the source). -/
def createObstaclesFromElements : List DiagramElement → List String → List Obstacle
  | [], _ => []
  | e :: rest, excludeIds =>
    if excludeIds.contains e.eid then createObstaclesFromElements rest excludeIds
    else
      match e with
      | .shape i props =>
        createObstacleFromRect i ⟨props.x, props.y, props.w, props.h⟩ 10 ::
          createObstaclesFromElements rest excludeIds
      | .linker _ => createObstaclesFromElements rest excludeIds

/-- The obstacle a single shape element projects to. -/
def obstacleOfElement : DiagramElement → Obstacle
  | .shape i props => ⟨i, ⟨props.x, props.y, props.w, props.h⟩, 10⟩
  | .linker i => ⟨i, ⟨0, 0, 0, 0⟩, 10⟩

theorem createObstaclesFromElements_cons (e : DiagramElement) (rest : List DiagramElement)
    (excludeIds : List String) :
    createObstaclesFromElements (e :: rest) excludeIds =
      if excludeIds.contains e.eid then createObstaclesFromElements rest excludeIds
      else
        match e with
        | .shape i props =>
          createObstacleFromRect i ⟨props.x, props.y, props.w, props.h⟩ 10 ::
            createObstaclesFromElements rest excludeIds
        | .linker _ => createObstaclesFromElements rest excludeIds := by
  cases e <;> rfl

/-- C9.  `createObstaclesFromElements` returns, in order, one obstacle
per non-excluded shape element, copying the props rectangle with the
fixed default padding 10, and skipping excluded or non-shape elements;
in particular the concrete example from the spec. -/
theorem c9_obstacle_projection :
    (createObstaclesFromElements [.shape "s1" ⟨10, 20, 100, 50, 0⟩] [] =
      [⟨"s1", ⟨10, 20, 100, 50⟩, 10⟩]) ∧
    (∀ (elements : List DiagramElement) (excludeIds : List String),
      createObstaclesFromElements elements excludeIds =
        (elements.filter fun e => !excludeIds.contains e.eid && isShape e).map
          obstacleOfElement) := by
  constructor
  · decide
  · intro elements excludeIds
    induction elements with
    | nil => rfl
    | cons e rest ih =>
      rw [createObstaclesFromElements_cons, List.filter_cons]
      by_cases hex : excludeIds.contains e.eid
      · rw [if_pos hex]
        simp only [hex, Bool.not_true, Bool.false_and, if_neg (by simp : ¬(false = true))]
        exact ih
      · rw [if_neg hex]
        match e with
        | .shape i props =>
          simp only [hex, Bool.not_false, Bool.true_and, isShape, if_pos rfl, List.map_cons]
          rw [ih]
          rfl
        | .linker i =>
          simp only [hex, Bool.not_false, Bool.true_and, isShape,
            if_neg (by simp : ¬(false = true))]
          exact ih


/-! ## Segment-rectangle intersection, characterized for axis-aligned
segments (toward claim C1) -/

theorem opposite_sign_factors (a b c : ℚ)
    (h : (a * c > 0 ∧ b * c < 0) ∨ (a * c < 0 ∧ b * c > 0)) :
    (a < 0 ∧ 0 < b) ∨ (b < 0 ∧ 0 < a) := by
  rcases lt_trichotomy c 0 with hc | hc | hc
  · rcases h with ⟨h1, h2⟩ | ⟨h1, h2⟩
    · rcases mul_pos_iff.mp h1 with ⟨_, hc2⟩ | ⟨ha, _⟩
      · linarith
      · rcases mul_neg_iff.mp h2 with ⟨hb, _⟩ | ⟨_, hc3⟩
        · left; exact ⟨ha, hb⟩
        · linarith
    · rcases mul_neg_iff.mp h1 with ⟨ha, _⟩ | ⟨_, hc2⟩
      · rcases mul_pos_iff.mp h2 with ⟨_, hc3⟩ | ⟨hb, _⟩
        · linarith
        · right; exact ⟨hb, ha⟩
      · linarith
  · subst hc
    simp at h
  · rcases h with ⟨h1, h2⟩ | ⟨h1, h2⟩
    · rcases mul_pos_iff.mp h1 with ⟨ha, _⟩ | ⟨_, hc2⟩
      · rcases mul_neg_iff.mp h2 with ⟨_, hc3⟩ | ⟨hb, _⟩
        · linarith
        · right; exact ⟨hb, ha⟩
      · linarith
    · rcases mul_neg_iff.mp h1 with ⟨_, hc2⟩ | ⟨ha, _⟩
      · linarith
      · rcases mul_pos_iff.mp h2 with ⟨hb, _⟩ | ⟨_, hc3⟩
        · left; exact ⟨ha, hb⟩
        · linarith

theorem lineIntersectsLine_horiz_horiz (x1 x2 y0 ex1 ex2 ey : ℚ) :
    lineIntersectsLine ⟨x1, y0⟩ ⟨x2, y0⟩ ⟨ex1, ey⟩ ⟨ex2, ey⟩ = true ↔
      (y0 = ey ∧ min x1 x2 ≤ max ex1 ex2 ∧ min ex1 ex2 ≤ max x1 x2) := by
  simp only [lineIntersectsLine, direction, onSegment, Bool.or_eq_true, Bool.and_eq_true,
    decide_eq_true_eq, min_self, max_self]
  constructor
  · intro h
    rcases h with ((((⟨hA, _⟩ | ⟨hd, ha, hb, hc1, hc2⟩) | ⟨hd, ha, hb, hc1, hc2⟩) |
      ⟨hd, ha, hb, hc1, hc2⟩) | ⟨hd, ha, hb, hc1, hc2⟩)
    · exfalso
      rcases hA with ⟨h1, h2⟩ | ⟨h1, h2⟩ <;> (ring_nf at h1 h2; linarith)
    · exact ⟨le_antisymm hc2 hc1, le_trans (min_le_left x1 x2) hb,
        le_trans ha (le_max_left x1 x2)⟩
    · exact ⟨le_antisymm hc2 hc1, le_trans (min_le_right x1 x2) hb,
        le_trans ha (le_max_right x1 x2)⟩
    · exact ⟨le_antisymm hc1 hc2, le_trans ha (le_max_left ex1 ex2),
        le_trans (min_le_left ex1 ex2) hb⟩
    · exact ⟨le_antisymm hc1 hc2, le_trans ha (le_max_right ex1 ex2),
        le_trans (min_le_right ex1 ex2) hb⟩
  · rintro ⟨hy, hov1, hov2⟩
    subst hy
    rcases le_total (ex1 ⊓ ex2) (x1 ⊓ x2) with hc | hc
    · rcases min_cases x1 x2 with ⟨hm, _⟩ | ⟨hm, _⟩
      · left; left; left; right
        refine ⟨by ring, le_trans hc (le_of_eq hm), ?_, le_refl _, le_refl _⟩
        rw [← hm]
        exact hov1
      · left; left; right
        refine ⟨by ring, le_trans hc (le_of_eq hm), ?_, le_refl _, le_refl _⟩
        rw [← hm]
        exact hov1
    · rcases min_cases ex1 ex2 with ⟨hm, _⟩ | ⟨hm, _⟩
      · left; right
        refine ⟨by ring, le_trans hc (le_of_eq hm), ?_, le_refl _, le_refl _⟩
        rw [← hm]
        exact hov2
      · right
        refine ⟨by ring, le_trans hc (le_of_eq hm), ?_, le_refl _, le_refl _⟩
        rw [← hm]
        exact hov2

theorem lineIntersectsLine_horiz_vert (x1 x2 y0 ex ey1 ey2 : ℚ) :
    lineIntersectsLine ⟨x1, y0⟩ ⟨x2, y0⟩ ⟨ex, ey1⟩ ⟨ex, ey2⟩ = true ↔
      ((min x1 x2 < ex ∧ ex < max x1 x2 ∧ min ey1 ey2 < y0 ∧ y0 < max ey1 ey2) ∨
        (x1 = ex ∧ min ey1 ey2 ≤ y0 ∧ y0 ≤ max ey1 ey2) ∨
        (x2 = ex ∧ min ey1 ey2 ≤ y0 ∧ y0 ≤ max ey1 ey2) ∨
        (ey1 = y0 ∧ min x1 x2 ≤ ex ∧ ex ≤ max x1 x2) ∨
        (ey2 = y0 ∧ min x1 x2 ≤ ex ∧ ex ≤ max x1 x2)) := by
  have e1 : (x1 - ex) * (ey2 - ey1) - (ex - ex) * (y0 - ey1) = (x1 - ex) * (ey2 - ey1) := by
    ring
  have e2 : (x2 - ex) * (ey2 - ey1) - (ex - ex) * (y0 - ey1) = (x2 - ex) * (ey2 - ey1) := by
    ring
  have e3 : (ex - x1) * (y0 - y0) - (x2 - x1) * (ey1 - y0) = -((ey1 - y0) * (x2 - x1)) := by
    ring
  have e4 : (ex - x1) * (y0 - y0) - (x2 - x1) * (ey2 - y0) = -((ey2 - y0) * (x2 - x1)) := by
    ring
  simp only [lineIntersectsLine, direction, onSegment, Bool.or_eq_true, Bool.and_eq_true,
    decide_eq_true_eq, min_self, max_self]
  rw [e1, e2, e3, e4]
  constructor
  · intro h
    rcases h with ((((⟨hA, hB⟩ | ⟨hd, ha, hb, hc1, hc2⟩) | ⟨hd, ha, hb, hc1, hc2⟩) |
      ⟨hd, ha, hb, hc1, hc2⟩) | ⟨hd, ha, hb, hc1, hc2⟩)
    · left
      have hx := opposite_sign_factors (x1 - ex) (x2 - ex) (ey2 - ey1) hA
      have hB2 : ((ey1 - y0) * (x2 - x1) > 0 ∧ (ey2 - y0) * (x2 - x1) < 0) ∨
          ((ey1 - y0) * (x2 - x1) < 0 ∧ (ey2 - y0) * (x2 - x1) > 0) := by
        rcases hB with ⟨hb1, hb2⟩ | ⟨hb1, hb2⟩
        · right
          constructor <;> linarith
        · left
          constructor <;> linarith
      have hy := opposite_sign_factors (ey1 - y0) (ey2 - y0) (x2 - x1) hB2
      refine ⟨?_, ?_, ?_, ?_⟩
      · rcases hx with ⟨h1, _⟩ | ⟨h1, _⟩
        · exact lt_of_le_of_lt (min_le_left x1 x2) (by linarith)
        · exact lt_of_le_of_lt (min_le_right x1 x2) (by linarith)
      · rcases hx with ⟨_, h2⟩ | ⟨_, h2⟩
        · exact lt_of_lt_of_le (by linarith) (le_max_right x1 x2)
        · exact lt_of_lt_of_le (by linarith) (le_max_left x1 x2)
      · rcases hy with ⟨h1, _⟩ | ⟨h1, _⟩
        · exact lt_of_le_of_lt (min_le_left ey1 ey2) (by linarith)
        · exact lt_of_le_of_lt (min_le_right ey1 ey2) (by linarith)
      · rcases hy with ⟨_, h2⟩ | ⟨_, h2⟩
        · exact lt_of_lt_of_le (by linarith) (le_max_right ey1 ey2)
        · exact lt_of_lt_of_le (by linarith) (le_max_left ey1 ey2)
    · exact Or.inr (Or.inl ⟨le_antisymm hb ha, hc1, hc2⟩)
    · exact Or.inr (Or.inr (Or.inl ⟨le_antisymm hb ha, hc1, hc2⟩))
    · exact Or.inr (Or.inr (Or.inr (Or.inl ⟨le_antisymm hc2 hc1, ha, hb⟩)))
    · exact Or.inr (Or.inr (Or.inr (Or.inr ⟨le_antisymm hc2 hc1, ha, hb⟩)))
  · intro h
    rcases h with ⟨hs1, hs2, hs3, hs4⟩ | ⟨hx, hy1, hy2⟩ | ⟨hx, hy1, hy2⟩ |
      ⟨hy, hx1, hx2⟩ | ⟨hy, hx1, hx2⟩
    · left; left; left; left
      have hxor : (x1 < ex ∧ ex < x2) ∨ (x2 < ex ∧ ex < x1) := by
        rcases le_total x1 x2 with h12 | h12
        · rw [min_eq_left h12] at hs1
          rw [max_eq_right h12] at hs2
          exact Or.inl ⟨hs1, hs2⟩
        · rw [min_eq_right h12] at hs1
          rw [max_eq_left h12] at hs2
          exact Or.inr ⟨hs1, hs2⟩
      have hyor : (ey1 < y0 ∧ y0 < ey2) ∨ (ey2 < y0 ∧ y0 < ey1) := by
        rcases le_total ey1 ey2 with h12 | h12
        · rw [min_eq_left h12] at hs3
          rw [max_eq_right h12] at hs4
          exact Or.inl ⟨hs3, hs4⟩
        · rw [min_eq_right h12] at hs3
          rw [max_eq_left h12] at hs4
          exact Or.inr ⟨hs3, hs4⟩
      constructor
      · rcases hxor with ⟨ha, hb⟩ | ⟨ha, hb⟩ <;> rcases hyor with ⟨hc, hd⟩ | ⟨hc, hd⟩
        · exact Or.inr ⟨mul_neg_of_neg_of_pos (by linarith) (by linarith),
            mul_pos (by linarith) (by linarith)⟩
        · exact Or.inl ⟨mul_pos_of_neg_of_neg (by linarith) (by linarith),
            mul_neg_of_pos_of_neg (by linarith) (by linarith)⟩
        · exact Or.inl ⟨mul_pos (by linarith) (by linarith),
            mul_neg_of_neg_of_pos (by linarith) (by linarith)⟩
        · exact Or.inr ⟨mul_neg_of_pos_of_neg (by linarith) (by linarith),
            mul_pos_of_neg_of_neg (by linarith) (by linarith)⟩
      · rcases hxor with ⟨ha, hb⟩ | ⟨ha, hb⟩ <;> rcases hyor with ⟨hc, hd⟩ | ⟨hc, hd⟩
        · exact Or.inl ⟨neg_pos.mpr (mul_neg_of_neg_of_pos (by linarith) (by linarith)),
            neg_lt_zero.mpr (mul_pos (by linarith) (by linarith))⟩
        · exact Or.inr ⟨neg_lt_zero.mpr (mul_pos (by linarith) (by linarith)),
            neg_pos.mpr (mul_neg_of_neg_of_pos (by linarith) (by linarith))⟩
        · exact Or.inr ⟨neg_lt_zero.mpr (mul_pos_of_neg_of_neg (by linarith) (by linarith)),
            neg_pos.mpr (mul_neg_of_pos_of_neg (by linarith) (by linarith))⟩
        · exact Or.inl ⟨neg_pos.mpr (mul_neg_of_pos_of_neg (by linarith) (by linarith)),
            neg_lt_zero.mpr (mul_pos_of_neg_of_neg (by linarith) (by linarith))⟩
    · subst hx
      left; left; left; right
      exact ⟨by ring, le_refl _, le_refl _, hy1, hy2⟩
    · subst hx
      left; left; right
      exact ⟨by ring, le_refl _, le_refl _, hy1, hy2⟩
    · subst hy
      left; right
      exact ⟨by ring, hx1, hx2, le_refl _, le_refl _⟩
    · subst hy
      right
      exact ⟨by ring, hx1, hx2, le_refl _, le_refl _⟩

theorem direction_swap (pi pj pk : Point) : direction pj pi pk = -direction pi pj pk := by
  simp only [direction]
  ring

theorem onSegment_swap (pi pj pk : Point) : onSegment pj pi pk = onSegment pi pj pk := by
  simp only [onSegment]
  rw [min_comm pj.x pi.x, max_comm pj.x pi.x, min_comm pj.y pi.y, max_comm pj.y pi.y]

/-- Swapping the two endpoints of the second segment leaves
`lineIntersectsLine` unchanged. -/
theorem lineIntersectsLine_swap34 (p1 p2 p3 p4 : Point) :
    lineIntersectsLine p1 p2 p4 p3 = lineIntersectsLine p1 p2 p3 p4 := by
  rw [Bool.eq_iff_iff]
  simp only [lineIntersectsLine, Bool.or_eq_true, Bool.and_eq_true, decide_eq_true_eq]
  rw [direction_swap p3 p4 p1, direction_swap p3 p4 p2, onSegment_swap p3 p4 p1,
    onSegment_swap p3 p4 p2]
  simp only [gt_iff_lt, neg_pos, neg_lt_zero, neg_eq_zero]
  constructor <;>
    rintro ((((⟨hA, hB⟩ | ⟨h0, hs⟩) | ⟨h0, hs⟩) | ⟨h0, hs⟩) | ⟨h0, hs⟩) <;>
    first
      | exact Or.inl (Or.inl (Or.inl (Or.inl ⟨hA.symm,
          hB.elim (fun h => Or.inr ⟨h.2, h.1⟩) (fun h => Or.inl ⟨h.2, h.1⟩)⟩)))
      | exact Or.inl (Or.inl (Or.inl (Or.inr ⟨h0, hs⟩)))
      | exact Or.inl (Or.inl (Or.inr ⟨h0, hs⟩))
      | exact Or.inr ⟨h0, hs⟩
      | exact Or.inl (Or.inr ⟨h0, hs⟩)

/-- Swapping the two endpoints of the first segment leaves
`lineIntersectsLine` unchanged. -/
theorem lineIntersectsLine_swap12 (p1 p2 p3 p4 : Point) :
    lineIntersectsLine p2 p1 p3 p4 = lineIntersectsLine p1 p2 p3 p4 := by
  rw [Bool.eq_iff_iff]
  simp only [lineIntersectsLine, Bool.or_eq_true, Bool.and_eq_true, decide_eq_true_eq]
  rw [direction_swap p1 p2 p3, direction_swap p1 p2 p4, onSegment_swap p1 p2 p3,
    onSegment_swap p1 p2 p4]
  simp only [gt_iff_lt, neg_pos, neg_lt_zero, neg_eq_zero]
  constructor <;>
    rintro ((((⟨hA, hB⟩ | ⟨h0, hs⟩) | ⟨h0, hs⟩) | ⟨h0, hs⟩) | ⟨h0, hs⟩) <;>
    first
      | exact Or.inl (Or.inl (Or.inl (Or.inl
          ⟨hA.elim (fun h => Or.inr ⟨h.2, h.1⟩) (fun h => Or.inl ⟨h.2, h.1⟩), hB.symm⟩)))
      | exact Or.inl (Or.inl (Or.inr ⟨h0, hs⟩))
      | exact Or.inl (Or.inl (Or.inl (Or.inr ⟨h0, hs⟩)))
      | exact Or.inl (Or.inr ⟨h0, hs⟩)
      | exact Or.inr ⟨h0, hs⟩

/-- Transposing all coordinates (swapping the roles of x and y) leaves
`lineIntersectsLine` unchanged. -/
theorem lineIntersectsLine_transpose (a1 b1 a2 b2 a3 b3 a4 b4 : ℚ) :
    lineIntersectsLine ⟨b1, a1⟩ ⟨b2, a2⟩ ⟨b3, a3⟩ ⟨b4, a4⟩ =
      lineIntersectsLine ⟨a1, b1⟩ ⟨a2, b2⟩ ⟨a3, b3⟩ ⟨a4, b4⟩ := by
  rw [Bool.eq_iff_iff]
  simp only [lineIntersectsLine, direction, onSegment, Bool.or_eq_true, Bool.and_eq_true,
    decide_eq_true_eq]
  have k1 : (b1 - b3) * (a4 - a3) - (b4 - b3) * (a1 - a3) =
      -((a1 - a3) * (b4 - b3) - (a4 - a3) * (b1 - b3)) := by ring
  have k2 : (b2 - b3) * (a4 - a3) - (b4 - b3) * (a2 - a3) =
      -((a2 - a3) * (b4 - b3) - (a4 - a3) * (b2 - b3)) := by ring
  have k3 : (b3 - b1) * (a2 - a1) - (b2 - b1) * (a3 - a1) =
      -((a3 - a1) * (b2 - b1) - (a2 - a1) * (b3 - b1)) := by ring
  have k4 : (b4 - b1) * (a2 - a1) - (b2 - b1) * (a4 - a1) =
      -((a4 - a1) * (b2 - b1) - (a2 - a1) * (b4 - b1)) := by ring
  rw [k1, k2, k3, k4]
  simp only [gt_iff_lt, neg_pos, neg_lt_zero, neg_eq_zero]
  constructor <;>
    rintro ((((⟨hA, hB⟩ | ⟨h0, hs1, hs2, hs3, hs4⟩) | ⟨h0, hs1, hs2, hs3, hs4⟩) |
        ⟨h0, hs1, hs2, hs3, hs4⟩) | ⟨h0, hs1, hs2, hs3, hs4⟩) <;>
    first
      | exact Or.inl (Or.inl (Or.inl (Or.inl ⟨hA.symm, hB.symm⟩)))
      | exact Or.inl (Or.inl (Or.inl (Or.inr ⟨h0, hs3, hs4, hs1, hs2⟩)))
      | exact Or.inl (Or.inl (Or.inr ⟨h0, hs3, hs4, hs1, hs2⟩))
      | exact Or.inl (Or.inr ⟨h0, hs3, hs4, hs1, hs2⟩)
      | exact Or.inr ⟨h0, hs3, hs4, hs1, hs2⟩

theorem isPointInRect_transpose (a b X Y W H : ℚ) :
    isPointInRect ⟨b, a⟩ ⟨Y, X, H, W⟩ = isPointInRect ⟨a, b⟩ ⟨X, Y, W, H⟩ := by
  simp only [isPointInRect]
  exact decide_eq_decide.mpr (by constructor <;> intro h <;> tauto)

/-- Transposing all coordinates leaves `lineIntersectsRect` unchanged. -/
theorem lineIntersectsRect_transpose (a1 b1 a2 b2 X Y W H : ℚ) :
    lineIntersectsRect ⟨b1, a1⟩ ⟨b2, a2⟩ ⟨Y, X, H, W⟩ =
      lineIntersectsRect ⟨a1, b1⟩ ⟨a2, b2⟩ ⟨X, Y, W, H⟩ := by
  simp only [lineIntersectsRect, isPointInRect_transpose a1 b1 X Y W H,
    isPointInRect_transpose a2 b2 X Y W H]
  by_cases hp : (isPointInRect ⟨a1, b1⟩ (⟨X, Y, W, H⟩ : Rect) ||
      isPointInRect ⟨a2, b2⟩ ⟨X, Y, W, H⟩) = true
  · rw [if_pos hp, if_pos hp]
  · rw [if_neg hp, if_neg hp]
    rw [lineIntersectsLine_transpose a1 b1 a2 b2 X Y X (Y + H),
      lineIntersectsLine_transpose a1 b1 a2 b2 X (Y + H) (X + W) (Y + H),
      lineIntersectsLine_transpose a1 b1 a2 b2 (X + W) (Y + H) (X + W) Y,
      lineIntersectsLine_transpose a1 b1 a2 b2 (X + W) Y X Y]
    rw [lineIntersectsLine_swap34 ⟨a1, b1⟩ ⟨a2, b2⟩ ⟨X, Y + H⟩ ⟨X, Y⟩,
      lineIntersectsLine_swap34 ⟨a1, b1⟩ ⟨a2, b2⟩ ⟨X + W, Y + H⟩ ⟨X, Y + H⟩,
      lineIntersectsLine_swap34 ⟨a1, b1⟩ ⟨a2, b2⟩ ⟨X + W, Y⟩ ⟨X + W, Y + H⟩,
      lineIntersectsLine_swap34 ⟨a1, b1⟩ ⟨a2, b2⟩ ⟨X, Y⟩ ⟨X + W, Y⟩]
    rw [Bool.eq_iff_iff]
    simp only [Bool.or_eq_true]
    constructor <;> rintro (((h | h) | h) | h) <;>
      first
        | exact Or.inl (Or.inl (Or.inl h))
        | exact Or.inl (Or.inl (Or.inr h))
        | exact Or.inl (Or.inr h)
        | exact Or.inr h

/-- Swapping the segment endpoints leaves `lineIntersectsRect` unchanged. -/
theorem lineIntersectsRect_comm (p1 p2 : Point) (r : Rect) :
    lineIntersectsRect p2 p1 r = lineIntersectsRect p1 p2 r := by
  simp only [lineIntersectsRect]
  rw [show (isPointInRect p2 r || isPointInRect p1 r) =
      (isPointInRect p1 r || isPointInRect p2 r) from Bool.or_comm _ _]
  by_cases hp : (isPointInRect p1 r || isPointInRect p2 r) = true
  · rw [if_pos hp, if_pos hp]
  · rw [if_neg hp, if_neg hp]
    rw [lineIntersectsLine_swap12 p1 p2 ⟨r.x, r.y⟩ ⟨r.x + r.w, r.y⟩,
      lineIntersectsLine_swap12 p1 p2 ⟨r.x + r.w, r.y⟩ ⟨r.x + r.w, r.y + r.h⟩,
      lineIntersectsLine_swap12 p1 p2 ⟨r.x + r.w, r.y + r.h⟩ ⟨r.x, r.y + r.h⟩,
      lineIntersectsLine_swap12 p1 p2 ⟨r.x, r.y + r.h⟩ ⟨r.x, r.y⟩]

/-- Characterization of `lineIntersectsRect` for a horizontal segment with
`x1 ≤ x2`, against a rectangle of non-negative width and height: the
segment meets the rectangle iff its line lies within the vertical span and
the x-intervals overlap. -/
theorem lineIntersectsRect_horiz_le (x1 x2 y0 X Y W H : ℚ) (hx : x1 ≤ x2)
    (hw : 0 ≤ W) (hh0 : 0 ≤ H) :
    lineIntersectsRect ⟨x1, y0⟩ ⟨x2, y0⟩ ⟨X, Y, W, H⟩ = true ↔
      (Y ≤ y0 ∧ y0 ≤ Y + H ∧ X ≤ x2 ∧ x1 ≤ X + W) := by
  have hXW : X ≤ X + W := by linarith
  have hYH : Y ≤ Y + H := by linarith
  simp only [lineIntersectsRect]
  by_cases hp : (isPointInRect ⟨x1, y0⟩ (⟨X, Y, W, H⟩ : Rect) ||
      isPointInRect ⟨x2, y0⟩ ⟨X, Y, W, H⟩) = true
  · rw [if_pos hp]
    simp only [Bool.or_eq_true, isPointInRect, decide_eq_true_eq] at hp
    constructor
    · intro _
      rcases hp with ⟨ha, hb, hc, hd⟩ | ⟨ha, hb, hc, hd⟩ <;>
        exact ⟨hc, hd, by linarith, by linarith⟩
    · intro _
      rfl
  · rw [if_neg hp]
    have hnp := hp
    simp only [Bool.or_eq_true, isPointInRect, decide_eq_true_eq, not_or] at hnp
    simp only [Bool.or_eq_true]
    rw [lineIntersectsLine_horiz_horiz x1 x2 y0 X (X + W) Y,
      lineIntersectsLine_horiz_vert x1 x2 y0 (X + W) Y (Y + H),
      lineIntersectsLine_horiz_horiz x1 x2 y0 (X + W) X (Y + H),
      lineIntersectsLine_horiz_vert x1 x2 y0 X (Y + H) Y]
    simp only [min_eq_left hx, max_eq_right hx, min_eq_left hXW, max_eq_right hXW,
      min_eq_right hXW, max_eq_left hXW, min_eq_left hYH, max_eq_right hYH,
      min_eq_right hYH, max_eq_left hYH]
    constructor
    · intro h
      rcases h with (((⟨hA, hB, hC⟩ | hE) | ⟨hA, hB, hC⟩) | hE)
      · exact ⟨by linarith, by linarith, by linarith, by linarith⟩
      · rcases hE with ⟨hA, hB, hC, hD⟩ | ⟨hA, hB, hC⟩ | ⟨hA, hB, hC⟩ |
          ⟨hA, hB, hC⟩ | ⟨hA, hB, hC⟩ <;>
          exact ⟨by linarith, by linarith, by linarith, by linarith⟩
      · exact ⟨by linarith, by linarith, by linarith, by linarith⟩
      · rcases hE with ⟨hA, hB, hC, hD⟩ | ⟨hA, hB, hC⟩ | ⟨hA, hB, hC⟩ |
          ⟨hA, hB, hC⟩ | ⟨hA, hB, hC⟩ <;>
          exact ⟨by linarith, by linarith, by linarith, by linarith⟩
    · rintro ⟨h1, h2, h3, h4⟩
      rcases eq_or_lt_of_le h1 with ht | ht
      · exact Or.inl (Or.inl (Or.inl ⟨ht.symm, h4, h3⟩))
      · rcases eq_or_lt_of_le h2 with hb | hb
        · exact Or.inl (Or.inr ⟨hb, h4, h3⟩)
        · by_cases hx1 : X ≤ x1
          · exact absurd ⟨hx1, h4, le_of_lt ht, le_of_lt hb⟩ hnp.1
          · push_neg at hx1
            by_cases hx2 : x2 ≤ X + W
            · exact absurd ⟨h3, hx2, le_of_lt ht, le_of_lt hb⟩ hnp.2
            · push_neg at hx2
              exact Or.inr (Or.inl ⟨hx1, by linarith, ht, hb⟩)

/-- The general horizontal characterization of `lineIntersectsRect`. -/
theorem lineIntersectsRect_horiz (x1 x2 y0 : ℚ) (r : Rect) (hw : 0 ≤ r.w)
    (hh0 : 0 ≤ r.h) :
    lineIntersectsRect ⟨x1, y0⟩ ⟨x2, y0⟩ r = true ↔
      (r.y ≤ y0 ∧ y0 ≤ r.y + r.h ∧ r.x ≤ max x1 x2 ∧ min x1 x2 ≤ r.x + r.w) := by
  obtain ⟨X, Y, W, H⟩ := r
  rcases le_total x1 x2 with h12 | h12
  · rw [min_eq_left h12, max_eq_right h12]
    exact lineIntersectsRect_horiz_le x1 x2 y0 X Y W H h12 hw hh0
  · rw [min_eq_right h12, max_eq_left h12,
      lineIntersectsRect_comm ⟨x2, y0⟩ ⟨x1, y0⟩ ⟨X, Y, W, H⟩]
    exact lineIntersectsRect_horiz_le x2 x1 y0 X Y W H h12 hw hh0

/-- The vertical characterization of `lineIntersectsRect`, derived from the
horizontal one by transposition. -/
theorem lineIntersectsRect_vert (x0 y1 y2 : ℚ) (r : Rect) (hw : 0 ≤ r.w)
    (hh0 : 0 ≤ r.h) :
    lineIntersectsRect ⟨x0, y1⟩ ⟨x0, y2⟩ r = true ↔
      (r.x ≤ x0 ∧ x0 ≤ r.x + r.w ∧ r.y ≤ max y1 y2 ∧ min y1 y2 ≤ r.y + r.h) := by
  obtain ⟨X, Y, W, H⟩ := r
  rw [← lineIntersectsRect_transpose x0 y1 x0 y2 X Y W H]
  exact lineIntersectsRect_horiz y1 y2 x0 ⟨Y, X, H, W⟩ hh0 hw

/-- The convex hull of `{a, c}` is covered by the hulls of `{a, b}` and
`{b, c}`: an interval `[l, r]` meeting the former meets one of the latter. -/
theorem hull_split (a b c l r : ℚ) (hlr : l ≤ r) (hl : l ≤ max a c)
    (hr : min a c ≤ r) :
    (l ≤ max a b ∧ min a b ≤ r) ∨ (l ≤ max b c ∧ min b c ≤ r) := by
  rw [le_max_iff] at hl
  rw [min_le_iff] at hr
  rw [le_max_iff, min_le_iff, le_max_iff, min_le_iff]
  rcases hl with h1 | h1 <;> rcases hr with h2 | h2
  · exact Or.inl ⟨Or.inl h1, Or.inl h2⟩
  · by_cases hb : b ≤ r
    · exact Or.inl ⟨Or.inl h1, Or.inr hb⟩
    · exact Or.inr ⟨Or.inl (by linarith), Or.inr h2⟩
  · by_cases hb : b ≤ r
    · exact Or.inr ⟨Or.inr h1, Or.inl hb⟩
    · exact Or.inl ⟨Or.inr (by linarith), Or.inl h2⟩
  · exact Or.inr ⟨Or.inr h1, Or.inr h2⟩

/-- Merging two collinear horizontal segments that both miss a rectangle of
non-negative dimensions yields a segment that also misses it. -/
theorem lineIntersectsRect_merge_horiz (x1 x2 x3 y0 : ℚ) (r : Rect)
    (hw : 0 ≤ r.w) (hh0 : 0 ≤ r.h)
    (h1 : lineIntersectsRect ⟨x1, y0⟩ ⟨x2, y0⟩ r = false)
    (h2 : lineIntersectsRect ⟨x2, y0⟩ ⟨x3, y0⟩ r = false) :
    lineIntersectsRect ⟨x1, y0⟩ ⟨x3, y0⟩ r = false := by
  rcases Bool.eq_false_or_eq_true (lineIntersectsRect ⟨x1, y0⟩ ⟨x3, y0⟩ r) with h3 | h3
  swap
  · exact h3
  · exfalso
    obtain ⟨hy1, hy2, hx, hn⟩ := (lineIntersectsRect_horiz x1 x3 y0 r hw hh0).mp h3
    rcases hull_split x1 x2 x3 r.x (r.x + r.w) (by linarith) hx hn with ⟨ha, hb⟩ | ⟨ha, hb⟩
    · exact absurd ((lineIntersectsRect_horiz x1 x2 y0 r hw hh0).mpr ⟨hy1, hy2, ha, hb⟩)
        (by simp [h1])
    · exact absurd ((lineIntersectsRect_horiz x2 x3 y0 r hw hh0).mpr ⟨hy1, hy2, ha, hb⟩)
        (by simp [h2])

/-- Merging two collinear vertical segments that both miss a rectangle of
non-negative dimensions yields a segment that also misses it. -/
theorem lineIntersectsRect_merge_vert (x0 y1 y2 y3 : ℚ) (r : Rect)
    (hw : 0 ≤ r.w) (hh0 : 0 ≤ r.h)
    (h1 : lineIntersectsRect ⟨x0, y1⟩ ⟨x0, y2⟩ r = false)
    (h2 : lineIntersectsRect ⟨x0, y2⟩ ⟨x0, y3⟩ r = false) :
    lineIntersectsRect ⟨x0, y1⟩ ⟨x0, y3⟩ r = false := by
  rcases Bool.eq_false_or_eq_true (lineIntersectsRect ⟨x0, y1⟩ ⟨x0, y3⟩ r) with h3 | h3
  swap
  · exact h3
  · exfalso
    obtain ⟨hx1, hx2, hy, hn⟩ := (lineIntersectsRect_vert x0 y1 y3 r hw hh0).mp h3
    rcases hull_split y1 y2 y3 r.y (r.y + r.h) (by linarith) hy hn with ⟨ha, hb⟩ | ⟨ha, hb⟩
    · exact absurd ((lineIntersectsRect_vert x0 y1 y2 r hw hh0).mpr ⟨hx1, hx2, ha, hb⟩)
        (by simp [h1])
    · exact absurd ((lineIntersectsRect_vert x0 y2 y3 r hw hh0).mpr ⟨hx1, hx2, ha, hb⟩)
        (by simp [h2])

/-! ## Path simplification preserves validity

`findBestRoute` validates each raw candidate with `isRouteValid` but
returns the simplified path; the lemmas below transfer validity through
`simplifyOrthogonalPath` for orthogonal polylines (every candidate the
orthogonal router generates is orthogonal). -/

/-- Two consecutive points span an axis-aligned (possibly degenerate)
segment. -/
def alignedB (p q : Point) : Bool := decide (p.x = q.x ∨ p.y = q.y)

/-- Every consecutive segment of the polyline is axis-aligned. -/
def isOrthogonalPath : List Point → Bool
  | p :: q :: rest => alignedB p q && isOrthogonalPath (q :: rest)
  | _ => true

/-- The per-segment obstacle check of `isRouteValid`. -/
def segClear (p q : Point) (obstacles : List Obstacle) : Bool :=
  obstacles.all fun o => !lineIntersectsRect p q (expandRect o.bounds o.padding)

/-- Every padded obstacle rectangle has non-negative width and height
(the spec's convention for `Rect`). -/
def obstaclesNonneg (obstacles : List Obstacle) : Bool :=
  obstacles.all fun o =>
    decide (0 ≤ (expandRect o.bounds o.padding).w ∧ 0 ≤ (expandRect o.bounds o.padding).h)

theorem isRouteValid_cons (p q : Point) (rest : List Point) (obs : List Obstacle) :
    isRouteValid (p :: q :: rest) obs = (segClear p q obs && isRouteValid (q :: rest) obs) :=
  rfl

theorem isOrthogonalPath_cons (p q : Point) (rest : List Point) :
    isOrthogonalPath (p :: q :: rest) = (alignedB p q && isOrthogonalPath (q :: rest)) :=
  rfl

theorem segClear_true_iff (p q : Point) (obs : List Obstacle) :
    segClear p q obs = true ↔
      ∀ o ∈ obs, lineIntersectsRect p q (expandRect o.bounds o.padding) = false := by
  simp [segClear, List.all_eq_true]

/-- Dropping the middle point of two same-label consecutive segments keeps
the merged segment clear of every obstacle, and axis-aligned. -/
theorem segClear_merge (obs : List Obstacle) (hnn : obstaclesNonneg obs = true)
    (p c n : Point) (hlab : dirLabel p c = dirLabel c n)
    (hal1 : alignedB p c = true) (hal2 : alignedB c n = true)
    (h1 : segClear p c obs = true) (h2 : segClear c n obs = true) :
    segClear p n obs = true ∧ alignedB p n = true := by
  have key : (p.x = c.x ∧ c.x = n.x) ∨ (p.y = c.y ∧ c.y = n.y) := by
    simp only [dirLabel, alignedB, decide_eq_true_eq] at hlab hal1 hal2
    by_cases hv1 : c.x = p.x
    · rw [if_pos hv1] at hlab
      by_cases hv2 : n.x = c.x
      · exact Or.inl ⟨hv1.symm, hv2.symm⟩
      · rw [if_neg hv2] at hlab
        simp at hlab
    · rw [if_neg hv1] at hlab
      by_cases hv2 : n.x = c.x
      · rw [if_pos hv2] at hlab
        simp at hlab
      · rcases hal1 with h | h
        · exact absurd h.symm hv1
        · rcases hal2 with h' | h'
          · exact absurd h'.symm hv2
          · exact Or.inr ⟨h, h'⟩
  simp only [obstaclesNonneg, List.all_eq_true, decide_eq_true_eq] at hnn
  constructor
  · rw [segClear_true_iff] at h1 h2 ⊢
    intro o ho
    obtain ⟨hw, hh0⟩ := hnn o ho
    obtain ⟨px, py⟩ := p
    obtain ⟨cx, cy⟩ := c
    obtain ⟨nx, ny⟩ := n
    rcases key with ⟨e1, e2⟩ | ⟨e1, e2⟩
    · simp only at e1 e2
      subst e1
      subst e2
      exact lineIntersectsRect_merge_vert px py cy ny _ hw hh0 (h1 o ho) (h2 o ho)
    · simp only at e1 e2
      subst e1
      subst e2
      exact lineIntersectsRect_merge_horiz px cx nx py _ hw hh0 (h1 o ho) (h2 o ho)
  · simp only [alignedB, decide_eq_true_eq]
    rcases key with ⟨e1, e2⟩ | ⟨e1, e2⟩
    · exact Or.inl (e1.trans e2)
    · exact Or.inr (e1.trans e2)

theorem simplifyGo_valid (obs : List Obstacle) (hnn : obstaclesNonneg obs = true)
    (l : List Point) :
    ∀ (prev c : Point), segClear prev c obs = true → alignedB prev c = true →
      isRouteValid (c :: l) obs = true → isOrthogonalPath (c :: l) = true →
      isRouteValid (prev :: simplifyGo prev (c :: l)) obs = true := by
  induction l with
  | nil =>
    intro prev c hsc _ _ _
    show (segClear prev c obs && isRouteValid [c] obs) = true
    simp [hsc, isRouteValid]
  | cons n rest ih =>
    intro prev c hsc hal hv ho
    rw [isRouteValid_cons, Bool.and_eq_true] at hv
    rw [isOrthogonalPath_cons, Bool.and_eq_true] at ho
    by_cases hlab : dirLabel prev c ≠ dirLabel c n
    · simp only [simplifyGo, if_pos hlab]
      rw [isRouteValid_cons, Bool.and_eq_true]
      exact ⟨hsc, ih c n hv.1 ho.1 hv.2 ho.2⟩
    · simp only [simplifyGo, if_neg hlab]
      push_neg at hlab
      obtain ⟨hm1, hm2⟩ := segClear_merge obs hnn prev c n hlab hal ho.1 hsc hv.1
      exact ih prev n hm1 hm2 hv.2 ho.2

/-- `simplifyOrthogonalPath` preserves `isRouteValid` on orthogonal
polylines, provided every padded obstacle rectangle has non-negative
dimensions. -/
theorem simplify_preserves_valid (route : List Point) (obs : List Obstacle)
    (hnn : obstaclesNonneg obs = true)
    (hv : isRouteValid route obs = true) (ho : isOrthogonalPath route = true) :
    isRouteValid (simplifyOrthogonalPath route) obs = true := by
  match route with
  | [] => exact hv
  | [a] => exact hv
  | [a, b] => exact hv
  | p0 :: c :: n :: rest =>
    rw [isRouteValid_cons, Bool.and_eq_true] at hv
    rw [isOrthogonalPath_cons, Bool.and_eq_true] at ho
    show isRouteValid (p0 :: simplifyGo p0 (c :: n :: rest)) obs = true
    exact simplifyGo_valid obs hnn (n :: rest) p0 c hv.1 ho.1 hv.2 ho.2

theorem simplifyGo_ne_nil (l : List Point) :
    ∀ (prev : Point), l ≠ [] → simplifyGo prev l ≠ [] := by
  induction l with
  | nil => intro prev h; exact absurd rfl h
  | cons c rest ih =>
    intro prev _
    cases rest with
    | nil => simp [simplifyGo]
    | cons n rest2 =>
      by_cases hlab : dirLabel prev c ≠ dirLabel c n
      · simp only [simplifyGo, if_pos hlab]
        simp
      · simp only [simplifyGo, if_neg hlab]
        exact ih prev (by simp)

theorem simplifyGo_getLast? (l : List Point) :
    ∀ (prev : Point), l ≠ [] → (simplifyGo prev l).getLast? = l.getLast? := by
  induction l with
  | nil => intro prev h; exact absurd rfl h
  | cons c rest ih =>
    intro prev _
    cases rest with
    | nil => rfl
    | cons n rest2 =>
      by_cases hlab : dirLabel prev c ≠ dirLabel c n
      · simp only [simplifyGo, if_pos hlab]
        have hne := simplifyGo_ne_nil (n :: rest2) c (by simp)
        obtain ⟨y, ys, hys⟩ := List.exists_cons_of_ne_nil hne
        rw [hys, List.getLast?_cons_cons, ← hys, ih c (by simp), List.getLast?_cons_cons]
      · simp only [simplifyGo, if_neg hlab]
        rw [ih prev (by simp), List.getLast?_cons_cons]

theorem simplifyOrthogonalPath_head (route : List Point) :
    (simplifyOrthogonalPath route).head? = route.head? := by
  match route with
  | [] => rfl
  | [a] => rfl
  | [a, b] => rfl
  | p0 :: c :: n :: rest => rfl

theorem simplifyOrthogonalPath_getLast? (route : List Point) :
    (simplifyOrthogonalPath route).getLast? = route.getLast? := by
  match route with
  | [] => rfl
  | [a] => rfl
  | [a, b] => rfl
  | p0 :: c :: n :: rest =>
    show (p0 :: simplifyGo p0 (c :: n :: rest)).getLast? = _
    have hne := simplifyGo_ne_nil (c :: n :: rest) p0 (by simp)
    obtain ⟨y, ys, hys⟩ := List.exists_cons_of_ne_nil hne
    rw [hys, List.getLast?_cons_cons, ← hys, simplifyGo_getLast? (c :: n :: rest) p0 (by simp)]
    exact List.getLast?_cons_cons.symm

/-! ## The orthogonal router (source: `orthogonal.ts`)

`findBestRoute` compares real-valued costs (`Infinity` is modelled as
`none`), so the router functions are noncomputable; every candidate list
is a computable definition. -/

/-- Options of `orthogonalRoute`; an absent JS `bendCost` means the
`findBestRoute` default `10`, which is folded into the field default. -/
structure OrthogonalRouteOptions where
  startDirection : Option SegDir := none
  endDirection : Option SegDir := none
  bendCost : ℚ := 10

/-- `cost < minCost` with `minCost = none` playing `Infinity`. -/
def costLt (c : ℝ) : Option ℝ → Prop
  | none => True
  | some m => c < m

open Classical in
/-- The loop of `findBestRoute` over the candidate list, carrying the
current best result and minimal cost. -/
noncomputable def findBestRouteGo (obstacles : List Obstacle) (bendCost : ℚ) :
    List (List Point) → RouteResult → Option ℝ → RouteResult
  | [], best, _ => best
  | route :: rest, best, minCost =>
    if isRouteValid route obstacles then
      let simplified := simplifyOrthogonalPath route
      let cost := calculateRouteCost simplified bendCost
      if costLt cost minCost then
        findBestRouteGo obstacles bendCost rest ⟨simplified, true, some cost⟩ (some cost)
      else findBestRouteGo obstacles bendCost rest best minCost
    else findBestRouteGo obstacles bendCost rest best minCost

/-- Source: `findBestRoute`. -/
noncomputable def findBestRoute (candidates : List (List Point))
    (obstacles : List Obstacle) (bendCost : ℚ := 10) : RouteResult :=
  findBestRouteGo obstacles bendCost candidates ⟨[], false, none⟩ none

/-- Source: `tryDirectRoute`. -/
def tryDirectRoute (f t : Point) (obstacles : List Obstacle) : RouteResult :=
  if isRouteValid [f, t] obstacles then ⟨[f, t], true, none⟩ else ⟨[], false, none⟩

/-- The candidate lists pushed by `trySimpleOrthogonal`. -/
def simpleCandidates (f t : Point) (options : OrthogonalRouteOptions) :
    List (List Point) :=
  let dx := t.x - f.x
  let dy := t.y - f.y
  (if options.startDirection ≠ some SegDir.v then
    [[f, ⟨f.x + dx, f.y⟩, ⟨f.x + dx, t.y⟩, t], [f, ⟨t.x, f.y⟩, t]]
  else []) ++
  (if options.startDirection ≠ some SegDir.h then
    [[f, ⟨f.x, f.y + dy⟩, ⟨t.x, f.y + dy⟩, t], [f, ⟨f.x, t.y⟩, t]]
  else [])

/-- Source: `trySimpleOrthogonal`. -/
noncomputable def trySimpleOrthogonal (f t : Point) (obstacles : List Obstacle)
    (options : OrthogonalRouteOptions) : RouteResult :=
  findBestRoute (simpleCandidates f t options) obstacles options.bendCost

/-- The candidate lists pushed by `tryIntermediateRoute`. -/
def intermediateCandidates (f t : Point) : List (List Point) :=
  let midX := (f.x + t.x) / 2
  let midY := (f.y + t.y) / 2
  ([⟨midX, midY⟩, ⟨f.x, midY⟩, ⟨t.x, midY⟩, ⟨midX, f.y⟩, ⟨midX, t.y⟩] : List Point).flatMap
    fun mid => [[f, ⟨mid.x, f.y⟩, ⟨mid.x, t.y⟩, t], [f, ⟨f.x, mid.y⟩, ⟨t.x, mid.y⟩, t]]

/-- Source: `tryIntermediateRoute`. -/
noncomputable def tryIntermediateRoute (f t : Point) (obstacles : List Obstacle)
    (options : OrthogonalRouteOptions) : RouteResult :=
  findBestRoute (intermediateCandidates f t) obstacles options.bendCost

/-- Source: `generateEscapePoints`. -/
def generateEscapePoints (point : Point) (bounds : Rect) (obstacles : List Obstacle) :
    List Point :=
  (([30, 60, 100, 150] : List ℚ).flatMap fun offset =>
    [⟨point.x, bounds.y - offset⟩, ⟨point.x, bounds.y + bounds.h + offset⟩,
      ⟨bounds.x - offset, point.y⟩, ⟨bounds.x + bounds.w + offset, point.y⟩]).filter
    fun p => !isPointInAnyObstacle p obstacles

/-- Source: `buildEscapeRoute`. -/
def buildEscapeRoute (f t startEscape endEscape : Point) : List Point :=
  [f, ⟨startEscape.x, f.y⟩, startEscape] ++
    (if startEscape.x ≠ endEscape.x ∧ startEscape.y ≠ endEscape.y then
      [⟨startEscape.x, (startEscape.y + endEscape.y) / 2⟩,
        ⟨endEscape.x, (startEscape.y + endEscape.y) / 2⟩]
    else []) ++
    [endEscape, ⟨endEscape.x, t.y⟩, t]

/-- The candidate lists pushed by `tryComplexOrthogonal`: escape-point
routes, plain offset routes, and boundary routes. -/
def complexCandidates (f t : Point) (obstacles : List Obstacle) (config : RouterConfig) :
    List (List Point) :=
  let bounds := calculateBounds f t obstacles config.padding 50
  let startEscapePoints := generateEscapePoints f bounds obstacles
  let endEscapePoints := generateEscapePoints t bounds obstacles
  let escapeRoutes := startEscapePoints.flatMap fun s =>
    endEscapePoints.map fun e => buildEscapeRoute f t s e
  let escapeOffsets : List ℚ := [50, 100, 150, 200]
  let offsetRoutes := escapeOffsets.flatMap fun offset =>
    [[f, ⟨f.x + offset, f.y⟩, ⟨f.x + offset, t.y⟩, t],
      [f, ⟨f.x - offset, f.y⟩, ⟨f.x - offset, t.y⟩, t],
      [f, ⟨f.x, f.y + offset⟩, ⟨t.x, f.y + offset⟩, t],
      [f, ⟨f.x, f.y - offset⟩, ⟨t.x, f.y - offset⟩, t]]
  let topY := bounds.y - 30
  let bottomY := bounds.y + bounds.h + 30
  let leftX := bounds.x - 30
  let rightX := bounds.x + bounds.w + 30
  let boundaryRoutes := escapeOffsets.flatMap fun offset =>
    [[f, ⟨f.x + offset, f.y⟩, ⟨f.x + offset, topY⟩, ⟨t.x, topY⟩, ⟨t.x, t.y⟩, t],
      [f, ⟨f.x + offset, f.y⟩, ⟨f.x + offset, bottomY⟩, ⟨t.x, bottomY⟩, ⟨t.x, t.y⟩, t],
      [f, ⟨f.x, f.y + offset⟩, ⟨leftX, f.y + offset⟩, ⟨leftX, t.y⟩, ⟨t.x, t.y⟩, t],
      [f, ⟨f.x, f.y + offset⟩, ⟨rightX, f.y + offset⟩, ⟨rightX, t.y⟩, ⟨t.x, t.y⟩, t]]
  escapeRoutes ++ offsetRoutes ++ boundaryRoutes

/-- Source: `tryComplexOrthogonal`. -/
noncomputable def tryComplexOrthogonal (f t : Point) (obstacles : List Obstacle)
    (config : RouterConfig) (options : OrthogonalRouteOptions) : RouteResult :=
  findBestRoute (complexCandidates f t obstacles config) obstacles options.bendCost

/-- Source: `orthogonalRoute` — the four-tier cascade. -/
noncomputable def orthogonalRoute (f t : Point) (obstacles : List Obstacle)
    (config : RouterConfig) (options : OrthogonalRouteOptions := {}) : RouteResult :=
  let directRoute := tryDirectRoute f t obstacles
  if directRoute.success then directRoute
  else
    let simpleRoute := trySimpleOrthogonal f t obstacles options
    if simpleRoute.success then simpleRoute
    else
      let intermediateRoute := tryIntermediateRoute f t obstacles options
      if intermediateRoute.success then intermediateRoute
      else
        let complexRoute := tryComplexOrthogonal f t obstacles config options
        if complexRoute.success then complexRoute
        else ⟨[f, t], false, none⟩

/-- A well-formed candidate: orthogonal polyline from `f` to `t`. -/
def CandOk (f t : Point) (r : List Point) : Prop :=
  isOrthogonalPath r = true ∧ r.head? = some f ∧ r.getLast? = some t

theorem simpleCandidates_spec (f t : Point) (options : OrthogonalRouteOptions) :
    ∀ r ∈ simpleCandidates f t options, CandOk f t r := by
  intro r hr
  simp only [simpleCandidates, List.mem_append] at hr
  rcases hr with hr | hr
  · by_cases hc : options.startDirection ≠ some SegDir.v
    · rw [if_pos hc] at hr
      simp only [List.mem_cons, List.not_mem_nil, or_false] at hr
      rcases hr with rfl | rfl <;> exact ⟨by simp [isOrthogonalPath, alignedB], rfl, rfl⟩
    · rw [if_neg hc] at hr
      simp at hr
  · by_cases hc : options.startDirection ≠ some SegDir.h
    · rw [if_pos hc] at hr
      simp only [List.mem_cons, List.not_mem_nil, or_false] at hr
      rcases hr with rfl | rfl <;> exact ⟨by simp [isOrthogonalPath, alignedB], rfl, rfl⟩
    · rw [if_neg hc] at hr
      simp at hr

theorem intermediateCandidates_spec (f t : Point) :
    ∀ r ∈ intermediateCandidates f t, CandOk f t r := by
  intro r hr
  simp only [intermediateCandidates, List.mem_flatMap, List.mem_cons, List.not_mem_nil,
    or_false] at hr
  obtain ⟨mid, _, hr⟩ := hr
  rcases hr with rfl | rfl <;> exact ⟨by simp [isOrthogonalPath, alignedB], rfl, rfl⟩

theorem buildEscapeRoute_spec (f t s e : Point) : CandOk f t (buildEscapeRoute f t s e) := by
  unfold buildEscapeRoute
  by_cases hmid : s.x ≠ e.x ∧ s.y ≠ e.y
  · rw [if_pos hmid]
    show CandOk f t [f, ⟨s.x, f.y⟩, s, ⟨s.x, (s.y + e.y) / 2⟩, ⟨e.x, (s.y + e.y) / 2⟩, e,
      ⟨e.x, t.y⟩, t]
    exact ⟨by simp [isOrthogonalPath, alignedB], rfl, rfl⟩
  · rw [if_neg hmid]
    show CandOk f t [f, ⟨s.x, f.y⟩, s, e, ⟨e.x, t.y⟩, t]
    refine ⟨?_, rfl, rfl⟩
    have hal : s.x = e.x ∨ s.y = e.y := by
      push_neg at hmid
      by_cases hx : s.x = e.x
      · exact Or.inl hx
      · exact Or.inr (hmid hx)
    simp [isOrthogonalPath, alignedB, hal]

theorem complexCandidates_spec (f t : Point) (obstacles : List Obstacle)
    (config : RouterConfig) :
    ∀ r ∈ complexCandidates f t obstacles config, CandOk f t r := by
  intro r hr
  simp only [complexCandidates, List.mem_append, List.mem_flatMap, List.mem_map,
    List.mem_cons, List.not_mem_nil, or_false] at hr
  rcases hr with ((hr | hr) | hr)
  · obtain ⟨s, _, e, _, rfl⟩ := hr
    exact buildEscapeRoute_spec f t s e
  · obtain ⟨offset, _, hr⟩ := hr
    rcases hr with rfl | rfl | rfl | rfl <;>
      exact ⟨by simp [isOrthogonalPath, alignedB], rfl, rfl⟩
  · obtain ⟨offset, _, hr⟩ := hr
    rcases hr with rfl | rfl | rfl | rfl <;>
      exact ⟨by simp [isOrthogonalPath, alignedB], rfl, rfl⟩

theorem findBestRouteGo_success (obstacles : List Obstacle) (bendCost : ℚ)
    (Q : List Point → Prop) :
    ∀ (cands : List (List Point)) (best : RouteResult) (mc : Option ℝ),
      (∀ r ∈ cands, Q r) →
      (best.success = true → ∃ route, Q route ∧ isRouteValid route obstacles = true ∧
        best.points = simplifyOrthogonalPath route) →
      (findBestRouteGo obstacles bendCost cands best mc).success = true →
      ∃ route, Q route ∧ isRouteValid route obstacles = true ∧
        (findBestRouteGo obstacles bendCost cands best mc).points =
          simplifyOrthogonalPath route := by
  intro cands
  induction cands with
  | nil =>
    intro best mc _ hbest hs
    exact hbest hs
  | cons route rest ih =>
    intro best mc hQ hbest
    simp only [findBestRouteGo]
    by_cases hval : isRouteValid route obstacles = true
    · rw [if_pos hval]
      by_cases hlt : costLt (calculateRouteCost (simplifyOrthogonalPath route) bendCost) mc
      · rw [if_pos hlt]
        exact ih _ _ (fun r hr => hQ r (List.mem_cons_of_mem _ hr))
          (fun _ => ⟨route, hQ route (List.mem_cons_self _ _), hval, rfl⟩)
      · rw [if_neg hlt]
        exact ih _ _ (fun r hr => hQ r (List.mem_cons_of_mem _ hr)) hbest
    · rw [if_neg hval]
      exact ih _ _ (fun r hr => hQ r (List.mem_cons_of_mem _ hr)) hbest

theorem findBestRouteGo_failure (obstacles : List Obstacle) (bendCost : ℚ) :
    ∀ (cands : List (List Point)) (best : RouteResult) (mc : Option ℝ),
      (∀ r ∈ cands, isRouteValid r obstacles = false) →
      findBestRouteGo obstacles bendCost cands best mc = best := by
  intro cands
  induction cands with
  | nil => intro best mc _; rfl
  | cons route rest ih =>
    intro best mc hall
    simp only [findBestRouteGo]
    rw [if_neg (by simp [hall route (List.mem_cons_self route rest)])]
    exact ih best mc fun r hr => hall r (List.mem_cons_of_mem _ hr)

theorem findBestRoute_spec (candidates : List (List Point)) (obstacles : List Obstacle)
    (bendCost : ℚ) (Q : List Point → Prop) (hQ : ∀ r ∈ candidates, Q r)
    (hs : (findBestRoute candidates obstacles bendCost).success = true) :
    ∃ route, Q route ∧ isRouteValid route obstacles = true ∧
      (findBestRoute candidates obstacles bendCost).points =
        simplifyOrthogonalPath route :=
  findBestRouteGo_success obstacles bendCost Q candidates ⟨[], false, none⟩ none hQ
    (fun h => by simp at h) hs

theorem findBestRoute_failure (candidates : List (List Point)) (obstacles : List Obstacle)
    (bendCost : ℚ) (hall : ∀ r ∈ candidates, isRouteValid r obstacles = false) :
    findBestRoute candidates obstacles bendCost = ⟨[], false, none⟩ :=
  findBestRouteGo_failure obstacles bendCost candidates ⟨[], false, none⟩ none hall

theorem tryDirectRoute_spec (f t : Point) (obstacles : List Obstacle)
    (hs : (tryDirectRoute f t obstacles).success = true) :
    (tryDirectRoute f t obstacles).points = [f, t] ∧
      isRouteValid [f, t] obstacles = true := by
  unfold tryDirectRoute at hs ⊢
  by_cases hv : isRouteValid [f, t] obstacles = true
  · rw [if_pos hv]
    exact ⟨rfl, hv⟩
  · rw [if_neg hv] at hs
    simp at hs

/-- Every successful `orthogonalRoute` result is either the validated
direct segment or the simplification of a validated orthogonal candidate
running from `f` to `t`. -/
theorem orthogonalRoute_success_points (f t : Point) (obstacles : List Obstacle)
    (config : RouterConfig) (options : OrthogonalRouteOptions)
    (hs : (orthogonalRoute f t obstacles config options).success = true) :
    ((orthogonalRoute f t obstacles config options).points = [f, t] ∧
      isRouteValid [f, t] obstacles = true) ∨
    ∃ route, CandOk f t route ∧ isRouteValid route obstacles = true ∧
      (orthogonalRoute f t obstacles config options).points =
        simplifyOrthogonalPath route := by
  simp only [orthogonalRoute] at hs ⊢
  by_cases h1 : (tryDirectRoute f t obstacles).success = true
  · rw [if_pos h1]
    exact Or.inl (tryDirectRoute_spec f t obstacles h1)
  · rw [if_neg h1] at hs ⊢
    by_cases h2 : (trySimpleOrthogonal f t obstacles options).success = true
    · rw [if_pos h2]
      exact Or.inr (findBestRoute_spec _ _ _ (CandOk f t) (simpleCandidates_spec f t options) h2)
    · rw [if_neg h2] at hs ⊢
      by_cases h3 : (tryIntermediateRoute f t obstacles options).success = true
      · rw [if_pos h3]
        exact Or.inr (findBestRoute_spec _ _ _ (CandOk f t) (intermediateCandidates_spec f t) h3)
      · rw [if_neg h3] at hs ⊢
        by_cases h4 : (tryComplexOrthogonal f t obstacles config options).success = true
        · rw [if_pos h4]
          exact Or.inr (findBestRoute_spec _ _ _ (CandOk f t)
            (complexCandidates_spec f t obstacles config) h4)
        · rw [if_neg h4] at hs
          simp at hs

/-- When the direct segment is invalid and every candidate of every tier
is invalid, `orthogonalRoute` returns the structural failure value. -/
theorem orthogonalRoute_failure (f t : Point) (obstacles : List Obstacle)
    (config : RouterConfig) (options : OrthogonalRouteOptions)
    (h1 : isRouteValid [f, t] obstacles = false)
    (h2 : ∀ r ∈ simpleCandidates f t options, isRouteValid r obstacles = false)
    (h3 : ∀ r ∈ intermediateCandidates f t, isRouteValid r obstacles = false)
    (h4 : ∀ r ∈ complexCandidates f t obstacles config, isRouteValid r obstacles = false) :
    orthogonalRoute f t obstacles config options = ⟨[f, t], false, none⟩ := by
  have hd : tryDirectRoute f t obstacles = ⟨[], false, none⟩ := by
    unfold tryDirectRoute
    rw [if_neg (by simp [h1])]
  have hsimple : trySimpleOrthogonal f t obstacles options = ⟨[], false, none⟩ :=
    findBestRoute_failure _ _ _ h2
  have hinter : tryIntermediateRoute f t obstacles options = ⟨[], false, none⟩ :=
    findBestRoute_failure _ _ _ h3
  have hcomplex : tryComplexOrthogonal f t obstacles config options = ⟨[], false, none⟩ :=
    findBestRoute_failure _ _ _ h4
  simp only [orthogonalRoute]
  rw [hd, hsimple, hinter, hcomplex]
  rfl

/-! ## The A* grid router (source: `astar.ts`)

The JS implementation mutates open nodes in place and shares them by
reference with the heap and the node map.  The model therefore keeps the
heap as a list of grid keys scored through the current node map (exactly
what the reference-sharing achieves), and stores in each node a snapshot
of its parent; snapshots are faithful because a parent is always a node
that has just been closed, and closed nodes are never mutated again.
The heuristic is abstracted as an arbitrary rational-valued function of
the two grid points, with the source's default `manhattan` as default;
no theorem below depends on its values. -/

/-- The source's default `manhattan` heuristic. -/
def manhattanH (x1 y1 x2 y2 : ℚ) : ℚ := |x2 - x1| + |y2 - y1|

/-- Options of `aStarRoute` (source: `AStarRouteOptions`). -/
structure AStarRouteOptions where
  heuristic : ℚ → ℚ → ℚ → ℚ → ℚ := manhattanH
  bendPenalty : ℚ := 20
  weight : ℚ := 1

/-- Source: `toKey` — the packed grid key. -/
def toKey (x y : ℚ) : ℚ := x * 1000000 + y

/-- Search nodes (source: `AStarNode`); the parent snapshot replaces the
JS parent reference. -/
inductive ANode where
  | root (x y g h f : ℚ) (direction : Option SegDir)
  | child (x y g h f : ℚ) (parent : ANode) (direction : Option SegDir)
deriving DecidableEq

def ANode.x : ANode → ℚ
  | .root x _ _ _ _ _ => x
  | .child x _ _ _ _ _ _ => x

def ANode.y : ANode → ℚ
  | .root _ y _ _ _ _ => y
  | .child _ y _ _ _ _ _ => y

def ANode.g : ANode → ℚ
  | .root _ _ g _ _ _ => g
  | .child _ _ g _ _ _ _ => g

def ANode.h : ANode → ℚ
  | .root _ _ _ h _ _ => h
  | .child _ _ _ h _ _ _ => h

def ANode.f : ANode → ℚ
  | .root _ _ _ _ f _ => f
  | .child _ _ _ _ f _ _ => f

def ANode.direction : ANode → Option SegDir
  | .root _ _ _ _ _ d => d
  | .child _ _ _ _ _ _ d => d

instance : Inhabited ANode := ⟨.root 0 0 0 0 0 none⟩

instance : Inhabited Point := ⟨⟨0, 0⟩⟩

/-- The heap scoring function `(n) => n.f`, read through the current node
map as the JS reference sharing does. -/
def scoreFn (nodes : List (ℚ × ANode)) (k : ℚ) : ℚ :=
  ((nodes.lookup k).getD default).f

/-- Source: `isInBounds`. -/
def isInBounds (x y : ℚ) (bounds : Rect) : Bool :=
  decide (x ≥ bounds.x ∧ x ≤ bounds.x + bounds.w ∧ y ≥ bounds.y ∧ y ≤ bounds.y + bounds.h)

/-- The inclusive integer range of a JS `for (let i = a; i <= b; i++)`. -/
def intRange (a b : ℤ) : List ℤ :=
  (List.range (b + 1 - a).toNat).map fun i => a + i

/-- Source: `buildObstacleGrid` — rasterises each padded obstacle onto the
grid (a list of keys modelling the JS `Set`). -/
def buildObstacleGrid (obstacles : List Obstacle) (bounds : Rect) (gridSize : ℚ) :
    List ℚ :=
  obstacles.flatMap fun obstacle =>
    let expanded := expandRect obstacle.bounds obstacle.padding
    let startX := ⌊(expanded.x - bounds.x) / gridSize⌋
    let startY := ⌊(expanded.y - bounds.y) / gridSize⌋
    let endX := ⌈(expanded.x + expanded.w - bounds.x) / gridSize⌉
    let endY := ⌈(expanded.y + expanded.h - bounds.y) / gridSize⌉
    (intRange startX endX).flatMap fun gx =>
      (intRange startY endY).map fun gy => toKey (gx : ℚ) (gy : ℚ)

/-- Source: `isBlocked`. -/
def isBlocked (x y : ℚ) (obstacleGrid : List ℚ) (gridSize : ℚ) (bounds : Rect) : Bool :=
  let gx := ⌊(x - bounds.x) / gridSize⌋
  let gy := ⌊(y - bounds.y) / gridSize⌋
  decide (toKey (gx : ℚ) (gy : ℚ) ∈ obstacleGrid)

/-- The fixed parameters of one `aStarRoute` invocation. -/
structure AStarCtx where
  gridSize : ℚ
  orthogonalCost : ℚ
  bendPenalty : ℚ
  weight : ℚ
  hfun : ℚ → ℚ → ℚ → ℚ → ℚ
  endX : ℚ
  endY : ℚ
  bounds : Rect
  obstacleGrid : List ℚ

/-- The mutable search state: open heap (keys), node map, closed set. -/
structure AState where
  heap : List ℚ
  nodes : List (ℚ × ANode)
  closed : List ℚ

/-- The neighbour directions `[[0,-g,'v'],[g,0,'h'],[0,g,'v'],[-g,0,'h']]`. -/
def astarDirections (gridSize : ℚ) : List (ℚ × ℚ × SegDir) :=
  [(0, -gridSize, SegDir.v), (gridSize, 0, SegDir.h),
    (0, gridSize, SegDir.v), (-gridSize, 0, SegDir.h)]

/-- One neighbour of the inner `for` loop: skip closed / out-of-bounds /
blocked cells, otherwise create or relax the neighbour node and push its
key. -/
def stepNeighbor (ctx : AStarCtx) (current : ANode) (st : AState)
    (d : ℚ × ℚ × SegDir) : AState :=
  let nx := current.x + d.1
  let ny := current.y + d.2.1
  let neighborKey := toKey nx ny
  if neighborKey ∈ st.closed then st
  else if ¬ (isInBounds nx ny ctx.bounds = true) then st
  else if isBlocked nx ny ctx.obstacleGrid ctx.gridSize ctx.bounds then st
  else
    let isBend := current.direction ≠ none ∧ current.direction ≠ some d.2.2
    let bendCost := if isBend then ctx.bendPenalty else 0
    let moveCost := ctx.orthogonalCost * ctx.gridSize + bendCost
    let tentativeG := current.g + moveCost
    match st.nodes.lookup neighborKey with
    | none =>
      let hval := ctx.hfun nx ny ctx.endX ctx.endY
      let neighbor : ANode := .child nx ny tentativeG hval
        (tentativeG + hval * ctx.weight) current (some d.2.2)
      let nodes2 := (neighborKey, neighbor) :: st.nodes
      ⟨heapPush (scoreFn nodes2) st.heap neighborKey, nodes2, st.closed⟩
    | some old =>
      if tentativeG < old.g then
        let neighbor : ANode := .child old.x old.y tentativeG old.h
          (tentativeG + old.h * ctx.weight) current (some d.2.2)
        let nodes2 := (neighborKey, neighbor) :: st.nodes
        ⟨heapPush (scoreFn nodes2) st.heap neighborKey, nodes2, st.closed⟩
      else st

/-- All four neighbours of the popped node. -/
def expandNode (ctx : AStarCtx) (current : ANode) (st : AState) : AState :=
  (astarDirections ctx.gridSize).foldl (stepNeighbor ctx current) st

/-- The `while` loop of `aStarRoute`; the fuel is the remaining iteration
budget (`maxIterations - iterations`), and the second component counts
the iterations performed, each of which pops once. -/
def aStarLoop (ctx : AStarCtx) : ℕ → AState → Option ANode × ℕ
  | 0, _ => (none, 0)
  | fuel + 1, st =>
    if st.heap.isEmpty then (none, 0)
    else
      let popped := heapPop (scoreFn st.nodes) st.heap
      match popped.1 with
      | none => (none, 1)
      | some currentKey =>
        let current := (st.nodes.lookup currentKey).getD default
        if current.x = ctx.endX ∧ current.y = ctx.endY then (some current, 1)
        else
          let st2 := expandNode ctx current ⟨popped.2, st.nodes, currentKey :: st.closed⟩
          let res := aStarLoop ctx fuel st2
          (res.1, res.2 + 1)

/-- The fixed context of one `aStarRoute` call. -/
def aStarCtxOf (f t : Point) (obstacles : List Obstacle) (config : RouterConfig)
    (options : AStarRouteOptions) : AStarCtx :=
  let bounds := calculateBounds f t obstacles config.padding
  ⟨config.gridSize, config.orthogonalCost, options.bendPenalty, options.weight,
    options.heuristic, snapToGrid t.x config.gridSize, snapToGrid t.y config.gridSize,
    bounds, buildObstacleGrid obstacles bounds config.gridSize⟩

/-- The search phase of `aStarRoute`: initial state plus loop, returning
the goal node (if reached) and the number of iterations used. -/
def aStarRun (f t : Point) (obstacles : List Obstacle) (config : RouterConfig)
    (options : AStarRouteOptions := {}) : Option ANode × ℕ :=
  let ctx := aStarCtxOf f t obstacles config options
  let startX := snapToGrid f.x config.gridSize
  let startY := snapToGrid f.y config.gridSize
  let hs := options.heuristic startX startY ctx.endX ctx.endY
  let startNode : ANode := .root startX startY 0 hs (0 + hs * options.weight) none
  let startKey := toKey startX startY
  let nodes0 : List (ℚ × ANode) := [(startKey, startNode)]
  let st0 : AState := ⟨heapPush (scoreFn nodes0) [] startKey, nodes0, []⟩
  aStarLoop ctx config.maxIterations st0

/-- Source: `reconstructPath` — the node chain, parents first. -/
def reconstructPath : ANode → List Point
  | .root x y _ _ _ _ => [⟨x, y⟩]
  | .child x y _ _ _ parent _ => reconstructPath parent ++ [⟨x, y⟩]

/-- One sample of `hasLineOfSight` (`t = i / steps`); `true` means the
sampled cell is blocked. -/
def losSample (p1 p2 : Point) (obstacleGrid : List ℚ) (gridSize : ℚ) (bounds : Rect)
    (steps : ℚ) (i : ℕ) : Bool :=
  let t := (i : ℚ) / steps
  let x := p1.x + (p2.x - p1.x) * t
  let y := p1.y + (p2.y - p1.y) * t
  decide (toKey (⌊(x - bounds.x) / gridSize⌋ : ℚ) (⌊(y - bounds.y) / gridSize⌋ : ℚ)
    ∈ obstacleGrid)

/-- Source: `hasLineOfSight` — samples `steps + 1` points along the
segment.  With `steps = 0` the JS sample coordinate is `NaN`, whose key
is never in the set, so the result is `true`. -/
def hasLineOfSight (p1 p2 : Point) (obstacleGrid : List ℚ) (gridSize : ℚ)
    (bounds : Rect) : Bool :=
  let steps := max |p2.x - p1.x| |p2.y - p1.y| / gridSize
  if steps = 0 then true
  else (List.range (⌊steps⌋.toNat + 1)).all fun i =>
    !losSample p1 p2 obstacleGrid gridSize bounds steps i

/-- The inner scan of `smoothPath`: the largest index in the given
descending list with line of sight, defaulting to `current + 1`. -/
def findFarthestGo (pred : ℕ → Bool) (current : ℕ) : List ℕ → ℕ
  | [] => current + 1
  | i :: rest => if pred i then i else findFarthestGo pred current rest

/-- The outer loop of `smoothPath`; the fuel is bounded by the path
length since `farthest` strictly increases. -/
def smoothGo (path : List Point) (pred : Point → Point → Bool) : ℕ → ℕ → List Point
  | 0, _ => []
  | fuel + 1, current =>
    if current < path.length - 1 then
      let farthest := findFarthestGo
        (fun i => pred (path.getD current default) (path.getD i default)) current
        ((List.range' (current + 2) (path.length - 1 - (current + 1))).reverse)
      path.getD farthest default :: smoothGo path pred fuel farthest
    else []

/-- Source: `smoothPath`. -/
def smoothPath (path : List Point) (obstacleGrid : List ℚ) (gridSize : ℚ)
    (bounds : Rect) : List Point :=
  if path.length ≤ 2 then path
  else path.getD 0 default ::
    smoothGo path (fun a b => hasLineOfSight a b obstacleGrid gridSize bounds)
      path.length 0

/-- Source: `connectEndpoints` — prepends `from`, appends `to`, inserts
one axis-aligned bridge point at each end when needed, and simplifies. -/
def connectEndpoints (path : List Point) (f t : Point) : List Point :=
  match path with
  | [] => [f, t]
  | first :: rest =>
    let startBridge : List Point :=
      if first.x ≠ f.x ∨ first.y ≠ f.y then
        if |first.x - f.x| > |first.y - f.y| then [⟨first.x, f.y⟩] else [⟨f.x, first.y⟩]
      else []
    let lastP := (first :: rest).getLast (List.cons_ne_nil first rest)
    let endBridge : List Point :=
      if lastP.x ≠ t.x ∨ lastP.y ≠ t.y then
        if |lastP.x - t.x| > |lastP.y - t.y| then [⟨t.x, lastP.y⟩] else [⟨lastP.x, t.y⟩]
      else []
    simplifyOrthogonalPath ([f] ++ startBridge ++ (first :: rest) ++ endBridge ++ [t])

/-- Source: `aStarRoute` — search, then smoothing and endpoint
reconnection on success; cost is the goal node's accumulated `g`. -/
def aStarRoute (f t : Point) (obstacles : List Obstacle) (config : RouterConfig)
    (options : AStarRouteOptions := {}) : RouteResult :=
  let bounds := calculateBounds f t obstacles config.padding
  let obstacleGrid := buildObstacleGrid obstacles bounds config.gridSize
  match aStarRun f t obstacles config options with
  | (some goal, _) =>
    let path := reconstructPath goal
    let smoothedPath := smoothPath path obstacleGrid config.gridSize bounds
    ⟨connectEndpoints smoothedPath f t, true, some ((goal.g : ℚ) : ℝ)⟩
  | (none, _) => ⟨[f, t], false, none⟩

theorem aStarLoop_pops_le (ctx : AStarCtx) :
    ∀ (fuel : ℕ) (st : AState), (aStarLoop ctx fuel st).2 ≤ fuel := by
  intro fuel
  induction fuel with
  | zero => intro st; simp [aStarLoop]
  | succ n ih =>
    intro st
    simp only [aStarLoop]
    by_cases he : st.heap.isEmpty = true
    · rw [if_pos he]
      simp
    · rw [if_neg he]
      cases hp : (heapPop (scoreFn st.nodes) st.heap).1 with
      | none => simp
      | some ck =>
        dsimp only
        by_cases hg : (((st.nodes.lookup ck).getD default).x = ctx.endX ∧
            ((st.nodes.lookup ck).getD default).y = ctx.endY)
        · rw [if_pos hg]
          simp
        · rw [if_neg hg]
          exact Nat.succ_le_succ (ih _)

/-- The accumulated-cost invariant of the implicit claim: the root has
`g = 0` and every child's `g` adds `orthogonalCost * gridSize` plus
`bendPenalty` exactly when its direction differs from its parent's. -/
def chainOk (ctx : AStarCtx) : ANode → Bool
  | .root _ _ g _ _ _ => decide (g = 0)
  | .child _ _ g _ _ parent d =>
    chainOk ctx parent &&
      decide (g = parent.g + ctx.orthogonalCost * ctx.gridSize +
        (if parent.direction ≠ none ∧ parent.direction ≠ d then ctx.bendPenalty else 0))

theorem lookup_mem {β : Type} (l : List (ℚ × β)) (k : ℚ) (v : β)
    (h : l.lookup k = some v) : (k, v) ∈ l := by
  induction l with
  | nil => simp [List.lookup] at h
  | cons p rest ih =>
    obtain ⟨k2, v2⟩ := p
    rw [List.lookup] at h
    cases hbeq : (k == k2) with
    | true =>
      rw [hbeq] at h
      have hk : k = k2 := eq_of_beq hbeq
      have hv : v2 = v := by
        simpa using h
      exact hk ▸ hv ▸ List.mem_cons_self _ _
    | false =>
      rw [hbeq] at h
      exact List.mem_cons_of_mem _ (ih h)

theorem stepNeighbor_chainOk (ctx : AStarCtx) (current : ANode) (st : AState)
    (d : ℚ × ℚ × SegDir) (hcur : chainOk ctx current = true)
    (hall : ∀ p ∈ st.nodes, chainOk ctx p.2 = true) :
    ∀ p ∈ (stepNeighbor ctx current st d).nodes, chainOk ctx p.2 = true := by
  simp only [stepNeighbor]
  by_cases h1 : toKey (current.x + d.1) (current.y + d.2.1) ∈ st.closed
  · rw [if_pos h1]; exact hall
  · rw [if_neg h1]
    by_cases h2 : ¬ (isInBounds (current.x + d.1) (current.y + d.2.1) ctx.bounds = true)
    · rw [if_pos h2]; exact hall
    · rw [if_neg h2]
      by_cases h3 : isBlocked (current.x + d.1) (current.y + d.2.1) ctx.obstacleGrid
          ctx.gridSize ctx.bounds = true
      · rw [if_pos h3]; exact hall
      · rw [if_neg h3]
        cases hl : st.nodes.lookup (toKey (current.x + d.1) (current.y + d.2.1)) with
        | none =>
          dsimp only
          intro p hp
          rcases List.mem_cons.mp hp with rfl | hp2
          · simp only [chainOk, Bool.and_eq_true, decide_eq_true_eq]
            exact ⟨hcur, by ring⟩
          · exact hall p hp2
        | some old =>
          dsimp only
          by_cases h4 : current.g + (ctx.orthogonalCost * ctx.gridSize +
              (if current.direction ≠ none ∧ current.direction ≠ some d.2.2 then
                ctx.bendPenalty else 0)) < old.g
          · rw [if_pos h4]
            intro p hp
            rcases List.mem_cons.mp hp with rfl | hp2
            · simp only [chainOk, Bool.and_eq_true, decide_eq_true_eq]
              exact ⟨hcur, by ring⟩
            · exact hall p hp2
          · rw [if_neg h4]
            exact hall

theorem expandNode_chainOk (ctx : AStarCtx) (current : ANode) (st : AState)
    (hcur : chainOk ctx current = true)
    (hall : ∀ p ∈ st.nodes, chainOk ctx p.2 = true) :
    ∀ p ∈ (expandNode ctx current st).nodes, chainOk ctx p.2 = true := by
  have key : ∀ (ds : List (ℚ × ℚ × SegDir)) (st : AState),
      (∀ p ∈ st.nodes, chainOk ctx p.2 = true) →
      ∀ p ∈ (ds.foldl (stepNeighbor ctx current) st).nodes, chainOk ctx p.2 = true := by
    intro ds
    induction ds with
    | nil => intro st h; exact h
    | cons d rest ih =>
      intro st h
      exact ih _ (stepNeighbor_chainOk ctx current st d hcur h)
  exact key _ st hall

theorem aStarLoop_chainOk (ctx : AStarCtx) :
    ∀ (fuel : ℕ) (st : AState), (∀ p ∈ st.nodes, chainOk ctx p.2 = true) →
      ∀ goal, (aStarLoop ctx fuel st).1 = some goal → chainOk ctx goal = true := by
  intro fuel
  induction fuel with
  | zero => intro st _ goal h; simp [aStarLoop] at h
  | succ n ih =>
    intro st hall goal h
    simp only [aStarLoop] at h
    by_cases he : st.heap.isEmpty = true
    · rw [if_pos he] at h
      simp at h
    · rw [if_neg he] at h
      cases hp : (heapPop (scoreFn st.nodes) st.heap).1 with
      | none =>
        rw [hp] at h
        simp at h
      | some ck =>
        rw [hp] at h
        dsimp only at h
        have hcur : chainOk ctx ((st.nodes.lookup ck).getD default) = true := by
          cases hl : st.nodes.lookup ck with
          | none => simp [chainOk]
          | some nd =>
            have hmem := lookup_mem st.nodes ck nd hl
            simpa using hall (ck, nd) hmem
        by_cases hg : (((st.nodes.lookup ck).getD default).x = ctx.endX ∧
            ((st.nodes.lookup ck).getD default).y = ctx.endY)
        · rw [if_pos hg] at h
          have : (st.nodes.lookup ck).getD default = goal := by
            simpa using h
          rw [← this]
          exact hcur
        · rw [if_neg hg] at h
          dsimp only at h
          exact ih _ (expandNode_chainOk ctx _
            ⟨(heapPop (scoreFn st.nodes) st.heap).2, st.nodes, ck :: st.closed⟩
            hcur hall) goal h

/-- The iteration counter bound at the `aStarRun` level. -/
theorem aStarRun_pops_le (f t : Point) (obstacles : List Obstacle) (config : RouterConfig)
    (options : AStarRouteOptions) :
    (aStarRun f t obstacles config options).2 ≤ config.maxIterations :=
  aStarLoop_pops_le _ _ _

/-- Every goal node returned by the search satisfies the accumulated-cost
invariant. -/
theorem aStarRun_chainOk (f t : Point) (obstacles : List Obstacle) (config : RouterConfig)
    (options : AStarRouteOptions) (goal : ANode) (n : ℕ)
    (h : aStarRun f t obstacles config options = (some goal, n)) :
    chainOk (aStarCtxOf f t obstacles config options) goal = true := by
  have h1 : (aStarRun f t obstacles config options).1 = some goal := by rw [h]
  refine aStarLoop_chainOk _ _ _ ?_ goal h1
  intro p hp
  simp only [List.mem_singleton] at hp
  subst hp
  simp [chainOk]

/-- When the loop ends without reaching the goal, `aStarRoute` returns the
structural failure value. -/
theorem aStarRoute_failure_eq (f t : Point) (obstacles : List Obstacle)
    (config : RouterConfig) (options : AStarRouteOptions)
    (h : (aStarRun f t obstacles config options).1 = none) :
    aStarRoute f t obstacles config options = ⟨[f, t], false, none⟩ := by
  simp only [aStarRoute]
  rcases hrun : aStarRun f t obstacles config options with ⟨o, n⟩
  obtain rfl : o = none := by rw [hrun] at h; exact h
  rfl

/-- On success, `aStarRoute` returns the smoothed, endpoint-reconnected
points and the goal node's raw `g` as cost. -/
theorem aStarRoute_success_eq (f t : Point) (obstacles : List Obstacle)
    (config : RouterConfig) (options : AStarRouteOptions) (goal : ANode) (n : ℕ)
    (h : aStarRun f t obstacles config options = (some goal, n)) :
    aStarRoute f t obstacles config options =
      ⟨connectEndpoints
          (smoothPath (reconstructPath goal)
            (buildObstacleGrid obstacles (calculateBounds f t obstacles config.padding)
              config.gridSize)
            config.gridSize (calculateBounds f t obstacles config.padding)) f t,
        true, some ((goal.g : ℚ) : ℝ)⟩ := by
  simp only [aStarRoute]
  rw [h]

/-! ## The hybrid orchestrator (source: `expression-compiler.ts`) -/

inductive RouterAlgorithm where
  | astar
  | orthogonal
  | hybrid
deriving DecidableEq

/-- Options of `route`; `algorithm = none` models an unset JS field (the
`||` fallback picks hybrid). -/
structure RouterOptions where
  algorithm : Option RouterAlgorithm := none
  astarOptions : AStarRouteOptions := {}
  orthogonalOptions : OrthogonalRouteOptions := {}

open Classical in
/-- Source: `hybridRoute`.  The first test accepts a cheap good-enough
orthogonal result; the second runs the grid search only when the
orthogonal router failed or its defined cost exceeds 500. -/
noncomputable def hybridRoute (f t : Point) (obstacles : List Obstacle)
    (config : RouterConfig) (options : RouterOptions) : RouteResult :=
  let orthoResult := orthogonalRoute f t obstacles config options.orthogonalOptions
  if orthoResult.success = true ∧ ∃ c, orthoResult.cost = some c ∧
      euclideanDistance f t / c > 1/2 ∧ orthoResult.points.length ≤ 6 then
    orthoResult
  else if orthoResult.success = false ∨ ∃ c, orthoResult.cost = some c ∧ c > 500 then
    let astarResult := aStarRoute f t obstacles config options.astarOptions
    if astarResult.success then astarResult else orthoResult
  else orthoResult

/-- Source: `DEFAULT_ROUTER_CONFIG`. -/
def DEFAULT_ROUTER_CONFIG : RouterConfig := ⟨10, 15, 5000, 1414/1000, 1⟩

/-- Source: `route` — algorithm dispatch; the `config` parameter is the
already-merged configuration (the JS spread of the defaults and the
partial override). -/
noncomputable def route (f t : Point) (obstacles : List Obstacle)
    (config : RouterConfig := DEFAULT_ROUTER_CONFIG) (options : RouterOptions := {}) :
    RouteResult :=
  match options.algorithm.getD RouterAlgorithm.hybrid with
  | RouterAlgorithm.astar => aStarRoute f t obstacles config options.astarOptions
  | RouterAlgorithm.orthogonal =>
    orthogonalRoute f t obstacles config options.orthogonalOptions
  | RouterAlgorithm.hybrid => hybridRoute f t obstacles config options

/-- `hybridRoute` always returns one of its two sub-router results. -/
theorem hybridRoute_cases (f t : Point) (obstacles : List Obstacle)
    (config : RouterConfig) (options : RouterOptions) :
    hybridRoute f t obstacles config options =
      orthogonalRoute f t obstacles config options.orthogonalOptions ∨
    hybridRoute f t obstacles config options =
      aStarRoute f t obstacles config options.astarOptions := by
  unfold hybridRoute
  by_cases h1 : (orthogonalRoute f t obstacles config options.orthogonalOptions).success =
      true ∧ ∃ c, (orthogonalRoute f t obstacles config options.orthogonalOptions).cost =
      some c ∧ euclideanDistance f t / c > 1/2 ∧
      (orthogonalRoute f t obstacles config options.orthogonalOptions).points.length ≤ 6
  · rw [if_pos h1]
    exact Or.inl rfl
  · rw [if_neg h1]
    by_cases h2 : (orthogonalRoute f t obstacles config options.orthogonalOptions).success =
        false ∨ ∃ c, (orthogonalRoute f t obstacles config options.orthogonalOptions).cost =
        some c ∧ c > 500
    · rw [if_pos h2]
      by_cases h3 : (aStarRoute f t obstacles config options.astarOptions).success = true
      · rw [if_pos h3]
        exact Or.inr rfl
      · rw [if_neg h3]
        exact Or.inl rfl
    · rw [if_neg h2]
      exact Or.inl rfl

theorem getLast?_append_last {α : Type} {a : α} (l1 l2 : List α)
    (h : l2.getLast? = some a) : (l1 ++ l2).getLast? = some a := by
  induction l1 with
  | nil => simpa
  | cons x xs ih =>
    rw [List.cons_append, ← ih]
    cases hxs : xs ++ l2 with
    | nil =>
      rw [List.append_eq_nil] at hxs
      rw [hxs.2] at h
      simp at h
    | cons y ys =>
      exact List.getLast?_cons_cons

/-- `connectEndpoints` always starts at `from` and ends at `to`. -/
theorem connectEndpoints_head_last (path : List Point) (f t : Point) :
    (connectEndpoints path f t).head? = some f ∧
    (connectEndpoints path f t).getLast? = some t := by
  match path with
  | [] => exact ⟨rfl, rfl⟩
  | first :: rest =>
    show (simplifyOrthogonalPath _).head? = some f ∧
      (simplifyOrthogonalPath _).getLast? = some t
    rw [simplifyOrthogonalPath_head, simplifyOrthogonalPath_getLast?]
    constructor
    · rfl
    · repeat apply getLast?_append_last
      rfl

/-- `aStarRoute` results always run exactly from `from` to `to`. -/
theorem aStarRoute_endpoints (f t : Point) (obstacles : List Obstacle)
    (config : RouterConfig) (options : AStarRouteOptions) :
    (aStarRoute f t obstacles config options).points.head? = some f ∧
    (aStarRoute f t obstacles config options).points.getLast? = some t := by
  rcases hrun : aStarRun f t obstacles config options with ⟨o, n⟩
  cases o with
  | none =>
    rw [aStarRoute_failure_eq f t obstacles config options (by rw [hrun])]
    exact ⟨rfl, rfl⟩
  | some goal =>
    rw [aStarRoute_success_eq f t obstacles config options goal n hrun]
    exact connectEndpoints_head_last _ f t

/-- Successful `orthogonalRoute` results run exactly from `from` to `to`. -/
theorem orthogonalRoute_endpoints (f t : Point) (obstacles : List Obstacle)
    (config : RouterConfig) (options : OrthogonalRouteOptions)
    (hs : (orthogonalRoute f t obstacles config options).success = true) :
    (orthogonalRoute f t obstacles config options).points.head? = some f ∧
    (orthogonalRoute f t obstacles config options).points.getLast? = some t := by
  rcases orthogonalRoute_success_points f t obstacles config options hs with
    ⟨hpts, _⟩ | ⟨route, ⟨_, hh, hl⟩, _, hpts⟩
  · rw [hpts]
    exact ⟨rfl, rfl⟩
  · rw [hpts, simplifyOrthogonalPath_head, simplifyOrthogonalPath_getLast?]
    exact ⟨hh, hl⟩

/-! ## Concrete routing scenarios

Small concrete inputs used to separate the code's behaviour from the
spec's claims, with every routing function evaluated exactly. -/

/-- A 2x2 obstacle at (14,14) with padding 1: padded square [13,17]^2. -/
def obsSquare : List Obstacle := [⟨"o", ⟨14, 14, 2, 2⟩, 1⟩]

/-- A config whose 100-unit grid snaps both endpoints of the scenario
below to the same cell (the orthogonal tiers never read `gridSize`). -/
def cfgSquare : RouterConfig := ⟨100, 1, 40, 1414/1000, 1⟩

theorem ortho_square_eval (bc : ℚ) (hbc : 0 ≤ bc) :
    orthogonalRoute ⟨0, 0⟩ ⟨30, 30⟩ obsSquare cfgSquare ⟨none, none, bc⟩ =
      ⟨[⟨0, 0⟩, ⟨30, 0⟩, ⟨30, 30⟩], true, some ((60 + bc : ℚ) : ℝ)⟩ := by
  have cA : calculateRouteCost [(⟨0, 0⟩ : Point), ⟨30, 0⟩, ⟨30, 30⟩] bc =
      ((60 + bc : ℚ) : ℝ) := by
    have h1 : calculatePathLength [(⟨0, 0⟩ : Point), ⟨30, 0⟩, ⟨30, 30⟩] = 60 := by
      simp only [calculatePathLength]
      rw [euclid_horiz ⟨0, 0⟩ ⟨30, 0⟩ rfl, euclid_vert ⟨30, 0⟩ ⟨30, 30⟩ rfl]
      norm_num
    have h2 : getBendCount [(⟨0, 0⟩ : Point), ⟨30, 0⟩, ⟨30, 30⟩] = 1 := by
      with_unfolding_all decide
    unfold calculateRouteCost
    rw [h1, h2]
    push_cast
    ring
  have cC : calculateRouteCost [(⟨0, 0⟩ : Point), ⟨0, 30⟩, ⟨30, 30⟩, ⟨30, 30⟩] bc =
      ((60 + 2 * bc : ℚ) : ℝ) := by
    have h1 : calculatePathLength [(⟨0, 0⟩ : Point), ⟨0, 30⟩, ⟨30, 30⟩, ⟨30, 30⟩] = 60 := by
      simp only [calculatePathLength]
      rw [euclid_vert ⟨0, 0⟩ ⟨0, 30⟩ rfl, euclid_horiz ⟨0, 30⟩ ⟨30, 30⟩ rfl,
        euclid_vert ⟨30, 30⟩ ⟨30, 30⟩ rfl]
      norm_num
    have h2 : getBendCount [(⟨0, 0⟩ : Point), ⟨0, 30⟩, ⟨30, 30⟩, ⟨30, 30⟩] = 2 := by
      with_unfolding_all decide
    unfold calculateRouteCost
    rw [h1, h2]
    push_cast
    ring
  have cD : calculateRouteCost [(⟨0, 0⟩ : Point), ⟨0, 30⟩, ⟨30, 30⟩] bc =
      ((60 + bc : ℚ) : ℝ) := by
    have h1 : calculatePathLength [(⟨0, 0⟩ : Point), ⟨0, 30⟩, ⟨30, 30⟩] = 60 := by
      simp only [calculatePathLength]
      rw [euclid_vert ⟨0, 0⟩ ⟨0, 30⟩ rfl, euclid_horiz ⟨0, 30⟩ ⟨30, 30⟩ rfl]
      norm_num
    have h2 : getBendCount [(⟨0, 0⟩ : Point), ⟨0, 30⟩, ⟨30, 30⟩] = 1 := by
      with_unfolding_all decide
    unfold calculateRouteCost
    rw [h1, h2]
    push_cast
    ring
  have hv1 : isRouteValid [(⟨0, 0⟩ : Point), ⟨30, 0⟩, ⟨30, 30⟩, ⟨30, 30⟩] obsSquare = true := by
    with_unfolding_all decide
  have hv2 : isRouteValid [(⟨0, 0⟩ : Point), ⟨30, 0⟩, ⟨30, 30⟩] obsSquare = true := by
    with_unfolding_all decide
  have hv3 : isRouteValid [(⟨0, 0⟩ : Point), ⟨0, 30⟩, ⟨30, 30⟩, ⟨30, 30⟩] obsSquare = true := by
    with_unfolding_all decide
  have hv4 : isRouteValid [(⟨0, 0⟩ : Point), ⟨0, 30⟩, ⟨30, 30⟩] obsSquare = true := by
    with_unfolding_all decide
  have hsA : simplifyOrthogonalPath [(⟨0, 0⟩ : Point), ⟨30, 0⟩, ⟨30, 30⟩, ⟨30, 30⟩] =
      [⟨0, 0⟩, ⟨30, 0⟩, ⟨30, 30⟩] := by with_unfolding_all decide
  have hsB : simplifyOrthogonalPath [(⟨0, 0⟩ : Point), ⟨30, 0⟩, ⟨30, 30⟩] =
      [⟨0, 0⟩, ⟨30, 0⟩, ⟨30, 30⟩] := by with_unfolding_all decide
  have hsC : simplifyOrthogonalPath [(⟨0, 0⟩ : Point), ⟨0, 30⟩, ⟨30, 30⟩, ⟨30, 30⟩] =
      [⟨0, 0⟩, ⟨0, 30⟩, ⟨30, 30⟩, ⟨30, 30⟩] := by with_unfolding_all decide
  have hsD : simplifyOrthogonalPath [(⟨0, 0⟩ : Point), ⟨0, 30⟩, ⟨30, 30⟩] =
      [⟨0, 0⟩, ⟨0, 30⟩, ⟨30, 30⟩] := by with_unfolding_all decide
  have hcands : simpleCandidates ⟨0, 0⟩ ⟨30, 30⟩ ⟨none, none, bc⟩ =
      [[⟨0, 0⟩, ⟨30, 0⟩, ⟨30, 30⟩, ⟨30, 30⟩], [⟨0, 0⟩, ⟨30, 0⟩, ⟨30, 30⟩],
        [⟨0, 0⟩, ⟨0, 30⟩, ⟨30, 30⟩, ⟨30, 30⟩], [⟨0, 0⟩, ⟨0, 30⟩, ⟨30, 30⟩]] := by
    simp only [simpleCandidates]
    norm_num
    rw [if_neg (by simp), if_neg (by simp)]
    rfl
  have hfb : findBestRouteGo obsSquare bc
      [[⟨0, 0⟩, ⟨30, 0⟩, ⟨30, 30⟩, ⟨30, 30⟩], [⟨0, 0⟩, ⟨30, 0⟩, ⟨30, 30⟩],
        [⟨0, 0⟩, ⟨0, 30⟩, ⟨30, 30⟩, ⟨30, 30⟩], [⟨0, 0⟩, ⟨0, 30⟩, ⟨30, 30⟩]]
      ⟨[], false, none⟩ none =
      ⟨[⟨0, 0⟩, ⟨30, 0⟩, ⟨30, 30⟩], true, some ((60 + bc : ℚ) : ℝ)⟩ := by
    have hltC : ¬ costLt ((60 + 2 * bc : ℚ) : ℝ) (some ((60 + bc : ℚ) : ℝ)) := by
      show ¬ (((60 + 2 * bc : ℚ) : ℝ) < ((60 + bc : ℚ) : ℝ))
      push_cast
      linarith [show (0 : ℝ) ≤ (bc : ℝ) from by exact_mod_cast hbc]
    simp only [findBestRouteGo, hv1, hv2, hv3, hv4, hsA, hsB, hsC, hsD, cA, cC, cD, costLt,
      eq_self_iff_true, lt_self_iff_false, hltC, if_true, if_false]
    rw [if_neg (show ¬ (((60 + 2 * bc : ℚ) : ℝ) < ((60 + bc : ℚ) : ℝ)) from hltC)]
  have hdirect : tryDirectRoute ⟨0, 0⟩ ⟨30, 30⟩ obsSquare = ⟨[], false, none⟩ := by
    unfold tryDirectRoute
    rw [if_neg (by with_unfolding_all decide)]
  have hsimple : trySimpleOrthogonal ⟨0, 0⟩ ⟨30, 30⟩ obsSquare ⟨none, none, bc⟩ =
      ⟨[⟨0, 0⟩, ⟨30, 0⟩, ⟨30, 30⟩], true, some ((60 + bc : ℚ) : ℝ)⟩ := by
    unfold trySimpleOrthogonal findBestRoute
    rw [hcands]
    exact hfb
  simp only [orthogonalRoute]
  rw [hdirect]
  rw [if_neg (by simp)]
  rw [hsimple]
  rw [if_pos rfl]

theorem euclid_square : euclideanDistance ⟨0, 0⟩ ⟨30, 30⟩ = Real.sqrt 1800 := by
  unfold euclideanDistance
  norm_num

/-- With bend cost 200 the orthogonal result costs 260: inefficient
(efficiency ≤ 1/2) but cheap enough (≤ 500), so the hybrid orchestrator
returns it without running the grid search. -/
theorem hybrid_square_eval :
    hybridRoute ⟨0, 0⟩ ⟨30, 30⟩ obsSquare cfgSquare ⟨none, {}, ⟨none, none, 200⟩⟩ =
      ⟨[⟨0, 0⟩, ⟨30, 0⟩, ⟨30, 30⟩], true, some ((60 + 200 : ℚ) : ℝ)⟩ := by
  have hortho := ortho_square_eval 200 (by norm_num)
  have hle : Real.sqrt 1800 ≤ 130 := by
    rw [show (130 : ℝ) = Real.sqrt (130 ^ 2) from (Real.sqrt_sq (by norm_num)).symm]
    exact Real.sqrt_le_sqrt (by norm_num)
  simp only [hybridRoute]
  rw [hortho]
  rw [if_neg (by
    rintro ⟨_, c, hc, heff, _⟩
    obtain rfl : ((60 + 200 : ℚ) : ℝ) = c := Option.some.inj hc
    rw [gt_iff_lt, euclid_square, lt_div_iff (by norm_num : (0:ℝ) < ((60 + 200 : ℚ) : ℝ))]
      at heff
    push_cast at heff
    linarith)]
  rw [if_neg (by
    rintro (hfail | ⟨c, hc, hgt⟩)
    · simp at hfail
    · obtain rfl : ((60 + 200 : ℚ) : ℝ) = c := Option.some.inj hc
      push_cast at hgt
      linarith)]

/-- With the default bend cost 10 the orthogonal result costs 70:
efficient, so the hybrid orchestrator accepts it immediately. -/
theorem hybrid_square_accept_eval :
    hybridRoute ⟨0, 0⟩ ⟨30, 30⟩ obsSquare cfgSquare ⟨none, {}, ⟨none, none, 10⟩⟩ =
      ⟨[⟨0, 0⟩, ⟨30, 0⟩, ⟨30, 30⟩], true, some ((60 + 10 : ℚ) : ℝ)⟩ := by
  have hortho := ortho_square_eval 10 (by norm_num)
  have h35 : (35 : ℝ) < Real.sqrt 1800 := by
    rw [show (35 : ℝ) = Real.sqrt (35 ^ 2) from (Real.sqrt_sq (by norm_num)).symm]
    exact Real.sqrt_lt_sqrt (by norm_num) (by norm_num)
  simp only [hybridRoute]
  rw [hortho]
  rw [if_pos ⟨rfl, ((60 + 10 : ℚ) : ℝ), rfl, by
    rw [gt_iff_lt, euclid_square, lt_div_iff (by norm_num : (0:ℝ) < ((60 + 10 : ℚ) : ℝ))]
    push_cast
    linarith, by simp⟩]

theorem ortho_direct_eval :
    orthogonalRoute ⟨0, 0⟩ ⟨10, 0⟩ [] DEFAULT_ROUTER_CONFIG ⟨none, none, 10⟩ =
      ⟨[⟨0, 0⟩, ⟨10, 0⟩], true, none⟩ := by
  simp only [orthogonalRoute]
  have hd : tryDirectRoute ⟨0, 0⟩ ⟨10, 0⟩ [] = ⟨[⟨0, 0⟩, ⟨10, 0⟩], true, none⟩ := by
    unfold tryDirectRoute
    rw [if_pos (by with_unfolding_all decide)]
  rw [hd, if_pos rfl]


/-- `route` dispatches to exactly one of the three routers. -/
theorem route_cases (f t : Point) (obstacles : List Obstacle) (config : RouterConfig)
    (ropts : RouterOptions) :
    route f t obstacles config ropts = aStarRoute f t obstacles config ropts.astarOptions ∨
    route f t obstacles config ropts =
      orthogonalRoute f t obstacles config ropts.orthogonalOptions ∨
    route f t obstacles config ropts = hybridRoute f t obstacles config ropts := by
  unfold route
  cases halg : ropts.algorithm.getD RouterAlgorithm.hybrid with
  | astar => exact Or.inl rfl
  | orthogonal => exact Or.inr (Or.inl rfl)
  | hybrid => exact Or.inr (Or.inr rfl)

theorem hybrid_direct_eval :
    hybridRoute ⟨0, 0⟩ ⟨10, 0⟩ [] DEFAULT_ROUTER_CONFIG
      ⟨none, ⟨manhattanH, 20, 1⟩, ⟨none, none, 10⟩⟩ =
      ⟨[⟨0, 0⟩, ⟨10, 0⟩], true, none⟩ := by
  simp only [hybridRoute]
  rw [ortho_direct_eval]
  rw [if_neg (by rintro ⟨_, c, hc, _⟩; exact Option.noConfusion hc)]
  rw [if_neg (by
    rintro (hfail | ⟨c, hc, _⟩)
    · simp at hfail
    · exact Option.noConfusion hc)]

theorem route_direct_eval :
    route ⟨0, 0⟩ ⟨10, 0⟩ [] DEFAULT_ROUTER_CONFIG
      ⟨none, ⟨manhattanH, 20, 1⟩, ⟨none, none, 10⟩⟩ =
      ⟨[⟨0, 0⟩, ⟨10, 0⟩], true, none⟩ :=
  hybrid_direct_eval

/-! ## Remaining concrete scenario inputs -/

/-- A 20x20 obstacle centred at the origin with padding 5: padded square
[-15,15]^2, which contains the origin. -/
def obsOrigin : List Obstacle := [⟨"o", ⟨-10, -10, 20, 20⟩, 5⟩]

/-- A single-iteration config on a 10-unit grid. -/
def cfgOrigin : RouterConfig := ⟨10, 5, 1, 1414/1000, 1⟩

/-- A 100x100 obstacle with padding 10, fully enclosing the start cell of
the scenarios below. -/
def obsWall : List Obstacle := [⟨"big", ⟨-50, -50, 100, 100⟩, 10⟩]

/-- A zero-iteration config on a 10-unit grid: the A* loop hits its
iteration cap before the first pop. -/
def cfgWall : RouterConfig := ⟨10, 10, 0, 1414/1000, 1⟩

/-- A single-iteration default-like config. -/
def cfgTiny : RouterConfig := ⟨10, 15, 1, 1414/1000, 1⟩

/-! ## The claims -/

/-- Claim C1, counterexample: the claim asserts that every successful
result of `route`, `aStarRoute` or `orthogonalRoute` has no consecutive
segment intersecting any padded obstacle rectangle, including the
segments produced by smoothing and endpoint reconnection.  For the
degenerate call below, `aStarRoute` succeeds (start cell = goal cell is
always popped first, regardless of blocking), and the returned
degenerate segment lies inside the padded obstacle rectangle, so
`isRouteValid` rejects it. -/
theorem c1_not_obstacle_avoidance :
    (aStarRoute ⟨0, 0⟩ ⟨0, 0⟩ obsOrigin cfgOrigin {}).success = true ∧
    isRouteValid (aStarRoute ⟨0, 0⟩ ⟨0, 0⟩ obsOrigin cfgOrigin {}).points obsOrigin =
      false := by
  constructor
  · with_unfolding_all decide
  · with_unfolding_all decide

/-- Claim C1, amended: obstacle avoidance holds for the orthogonal
router: every successful `orthogonalRoute` result passes `isRouteValid`
(no consecutive segment intersects a padded obstacle rectangle),
provided every padded obstacle rectangle has non-negative width and
height (the spec's `Rect` convention).  The A* router's smoothing and
endpoint-reconnection segments are not validated by the code, so the
claim's extension to `aStarRoute` and `route` is dropped. -/
theorem c1_obstacle_avoidance_amended (f t : Point) (obstacles : List Obstacle)
    (config : RouterConfig) (options : OrthogonalRouteOptions)
    (hnn : obstaclesNonneg obstacles = true)
    (hs : (orthogonalRoute f t obstacles config options).success = true) :
    isRouteValid (orthogonalRoute f t obstacles config options).points obstacles =
      true := by
  rcases orthogonalRoute_success_points f t obstacles config options hs with
    ⟨hpts, hval⟩ | ⟨route, ⟨hortho, _, _⟩, hval, hpts⟩
  · rw [hpts]
    exact hval
  · rw [hpts]
    exact simplify_preserves_valid route obstacles hnn hval hortho

theorem c1_obstacle_avoidance_amended_witness :
    obstaclesNonneg obsSquare = true ∧
    (orthogonalRoute ⟨0, 0⟩ ⟨30, 30⟩ obsSquare cfgSquare ⟨none, none, 10⟩).success =
      true ∧
    isRouteValid (orthogonalRoute ⟨0, 0⟩ ⟨30, 30⟩ obsSquare cfgSquare
      ⟨none, none, 10⟩).points obsSquare = true := by
  have hnn : obstaclesNonneg obsSquare = true := by with_unfolding_all decide
  have hs : (orthogonalRoute ⟨0, 0⟩ ⟨30, 30⟩ obsSquare cfgSquare
      ⟨none, none, 10⟩).success = true := by
    rw [ortho_square_eval 10 (by norm_num)]
  exact ⟨hnn, hs,
    c1_obstacle_avoidance_amended ⟨0, 0⟩ ⟨30, 30⟩ obsSquare cfgSquare ⟨none, none, 10⟩
      hnn hs⟩

/-- Claim C2: endpoint fidelity — every successful result of
`aStarRoute`, `orthogonalRoute` or `route` starts exactly at `from` and
ends exactly at `to` (original coordinates, not grid-snapped); stated
via `head?`/`getLast?`, which subsumes the claim's `length ≥ 2` case. -/
theorem c2_endpoint_fidelity (f t : Point) (obstacles : List Obstacle)
    (config : RouterConfig) (aopts : AStarRouteOptions)
    (oopts : OrthogonalRouteOptions) (ropts : RouterOptions) :
    ((aStarRoute f t obstacles config aopts).success = true →
      (aStarRoute f t obstacles config aopts).points.head? = some f ∧
      (aStarRoute f t obstacles config aopts).points.getLast? = some t) ∧
    ((orthogonalRoute f t obstacles config oopts).success = true →
      (orthogonalRoute f t obstacles config oopts).points.head? = some f ∧
      (orthogonalRoute f t obstacles config oopts).points.getLast? = some t) ∧
    ((route f t obstacles config ropts).success = true →
      (route f t obstacles config ropts).points.head? = some f ∧
      (route f t obstacles config ropts).points.getLast? = some t) := by
  refine ⟨fun _ => aStarRoute_endpoints f t obstacles config aopts,
    fun hs => orthogonalRoute_endpoints f t obstacles config oopts hs, fun hs => ?_⟩
  rcases route_cases f t obstacles config ropts with hr | hr | hr
  · rw [hr]
    exact aStarRoute_endpoints f t obstacles config ropts.astarOptions
  · rw [hr] at hs ⊢
    exact orthogonalRoute_endpoints f t obstacles config ropts.orthogonalOptions hs
  · rw [hr] at hs ⊢
    rcases hybridRoute_cases f t obstacles config ropts with hh | hh
    · rw [hh] at hs ⊢
      exact orthogonalRoute_endpoints f t obstacles config ropts.orthogonalOptions hs
    · rw [hh]
      exact aStarRoute_endpoints f t obstacles config ropts.astarOptions

theorem c2_endpoint_fidelity_witness :
    (route ⟨0, 0⟩ ⟨10, 0⟩ [] DEFAULT_ROUTER_CONFIG
        ⟨none, ⟨manhattanH, 20, 1⟩, ⟨none, none, 10⟩⟩).success = true ∧
    (route ⟨0, 0⟩ ⟨10, 0⟩ [] DEFAULT_ROUTER_CONFIG
        ⟨none, ⟨manhattanH, 20, 1⟩, ⟨none, none, 10⟩⟩).points.head? = some ⟨0, 0⟩ ∧
    (route ⟨0, 0⟩ ⟨10, 0⟩ [] DEFAULT_ROUTER_CONFIG
        ⟨none, ⟨manhattanH, 20, 1⟩, ⟨none, none, 10⟩⟩).points.getLast? = some ⟨10, 0⟩ := by
  have hs : (route ⟨0, 0⟩ ⟨10, 0⟩ [] DEFAULT_ROUTER_CONFIG
      ⟨none, ⟨manhattanH, 20, 1⟩, ⟨none, none, 10⟩⟩).success = true := by
    rw [route_direct_eval]
  have h := (c2_endpoint_fidelity ⟨0, 0⟩ ⟨10, 0⟩ [] DEFAULT_ROUTER_CONFIG
    ⟨manhattanH, 20, 1⟩ ⟨none, none, 10⟩
    ⟨none, ⟨manhattanH, 20, 1⟩, ⟨none, none, 10⟩⟩).2.2 hs
  exact ⟨hs, h.1, h.2⟩

/-- Claim C3: termination bound — for every input, the A* search performs
at most `maxIterations` iterations, each popping once from the open
queue (the counter is incremented once per pop and rechecked before the
next pop, which the fuelled loop `aStarLoop` encodes), regardless of the
obstacle layout. -/
theorem c3_termination_bound (f t : Point) (obstacles : List Obstacle)
    (config : RouterConfig) (options : AStarRouteOptions) :
    (aStarRun f t obstacles config options).2 ≤ config.maxIterations :=
  aStarRun_pops_le f t obstacles config options

/-- Claim C4, counterexample: the claim asserts the grid search runs
whenever the orthogonal result is rejected, including when it merely
succeeded inefficiently or with too many points.  Below, the orthogonal
result costs 260: its efficiency is ≤ 1/2 (so it is not accepted), its
cost is ≤ 500 and it succeeded (so the code's second test also fails),
and `hybridRoute` returns it unchanged — even though `aStarRoute`
succeeds on the same input with different points. -/
theorem c4_not_hybrid_policy :
    hybridRoute ⟨0, 0⟩ ⟨30, 30⟩ obsSquare cfgSquare ⟨none, {}, ⟨none, none, 200⟩⟩ =
      ⟨[⟨0, 0⟩, ⟨30, 0⟩, ⟨30, 30⟩], true, some ((60 + 200 : ℚ) : ℝ)⟩ ∧
    euclideanDistance ⟨0, 0⟩ ⟨30, 30⟩ / ((60 + 200 : ℚ) : ℝ) ≤ 1/2 ∧
    ((60 + 200 : ℚ) : ℝ) ≤ 500 ∧
    (aStarRoute ⟨0, 0⟩ ⟨30, 30⟩ obsSquare cfgSquare {}).success = true ∧
    (aStarRoute ⟨0, 0⟩ ⟨30, 30⟩ obsSquare cfgSquare {}).points ≠
      [⟨0, 0⟩, ⟨30, 0⟩, ⟨30, 30⟩] := by
  refine ⟨hybrid_square_eval, ?_, by push_cast; norm_num, ?_, ?_⟩
  · have hle : Real.sqrt 1800 ≤ 130 := by
      rw [show (130 : ℝ) = Real.sqrt (130 ^ 2) from (Real.sqrt_sq (by norm_num)).symm]
      exact Real.sqrt_le_sqrt (by norm_num)
    rw [euclid_square, div_le_iff (by norm_num : (0:ℝ) < ((60 + 200 : ℚ) : ℝ))]
    push_cast
    linarith
  · with_unfolding_all decide
  · with_unfolding_all decide

/-- Claim C4, amended: the hybrid policy with the code's actual gate —
the orthogonal result is accepted immediately iff it succeeds with a
defined cost, efficiency > 1/2 and at most 6 points; the grid search is
run iff the orthogonal router failed or its defined cost exceeds 500
(not merely because the result is inefficient or long), and its result
is returned whenever it succeeds; in every remaining case the
orthogonal result is returned. -/
theorem c4_hybrid_policy_amended (f t : Point) (obstacles : List Obstacle)
    (config : RouterConfig) (options : RouterOptions) :
    (((orthogonalRoute f t obstacles config options.orthogonalOptions).success = true ∧
        ∃ c, (orthogonalRoute f t obstacles config options.orthogonalOptions).cost =
            some c ∧ euclideanDistance f t / c > 1/2 ∧
          (orthogonalRoute f t obstacles config options.orthogonalOptions).points.length
            ≤ 6) →
      hybridRoute f t obstacles config options =
        orthogonalRoute f t obstacles config options.orthogonalOptions) ∧
    (¬ ((orthogonalRoute f t obstacles config options.orthogonalOptions).success = true ∧
        ∃ c, (orthogonalRoute f t obstacles config options.orthogonalOptions).cost =
            some c ∧ euclideanDistance f t / c > 1/2 ∧
          (orthogonalRoute f t obstacles config options.orthogonalOptions).points.length
            ≤ 6) →
      ((orthogonalRoute f t obstacles config options.orthogonalOptions).success = false ∨
        ∃ c, (orthogonalRoute f t obstacles config options.orthogonalOptions).cost =
          some c ∧ c > 500) →
      (((aStarRoute f t obstacles config options.astarOptions).success = true →
        hybridRoute f t obstacles config options =
          aStarRoute f t obstacles config options.astarOptions) ∧
      ((aStarRoute f t obstacles config options.astarOptions).success = false →
        hybridRoute f t obstacles config options =
          orthogonalRoute f t obstacles config options.orthogonalOptions))) ∧
    (¬ ((orthogonalRoute f t obstacles config options.orthogonalOptions).success = true ∧
        ∃ c, (orthogonalRoute f t obstacles config options.orthogonalOptions).cost =
            some c ∧ euclideanDistance f t / c > 1/2 ∧
          (orthogonalRoute f t obstacles config options.orthogonalOptions).points.length
            ≤ 6) →
      ¬ ((orthogonalRoute f t obstacles config options.orthogonalOptions).success =
          false ∨
        ∃ c, (orthogonalRoute f t obstacles config options.orthogonalOptions).cost =
          some c ∧ c > 500) →
      hybridRoute f t obstacles config options =
        orthogonalRoute f t obstacles config options.orthogonalOptions) := by
  simp only [hybridRoute]
  refine ⟨fun h => ?_, fun hna hrun => ?_, fun hna hnr => ?_⟩
  · rw [if_pos h]
  · rw [if_neg hna, if_pos hrun]
    constructor
    · intro hsucc
      rw [if_pos hsucc]
    · intro hfail
      rw [if_neg (by simp [hfail])]
  · rw [if_neg hna, if_neg hnr]

theorem c4_hybrid_policy_amended_witness :
    hybridRoute ⟨0, 0⟩ ⟨30, 30⟩ obsSquare cfgSquare ⟨none, {}, ⟨none, none, 10⟩⟩ =
      orthogonalRoute ⟨0, 0⟩ ⟨30, 30⟩ obsSquare cfgSquare ⟨none, none, 10⟩ := by
  apply (c4_hybrid_policy_amended ⟨0, 0⟩ ⟨30, 30⟩ obsSquare cfgSquare
    ⟨none, {}, ⟨none, none, 10⟩⟩).1
  have h35 : (35 : ℝ) < Real.sqrt 1800 := by
    rw [show (35 : ℝ) = Real.sqrt (35 ^ 2) from (Real.sqrt_sq (by norm_num)).symm]
    exact Real.sqrt_lt_sqrt (by norm_num) (by norm_num)
  constructor
  · show (orthogonalRoute ⟨0, 0⟩ ⟨30, 30⟩ obsSquare cfgSquare ⟨none, none, 10⟩).success =
      true
    rw [ortho_square_eval 10 (by norm_num)]
  · refine ⟨((60 + 10 : ℚ) : ℝ), ?_, ?_, ?_⟩
    · show (orthogonalRoute ⟨0, 0⟩ ⟨30, 30⟩ obsSquare cfgSquare ⟨none, none, 10⟩).cost =
        some ((60 + 10 : ℚ) : ℝ)
      rw [ortho_square_eval 10 (by norm_num)]
    · rw [gt_iff_lt, euclid_square, lt_div_iff (by norm_num : (0:ℝ) < ((60 + 10 : ℚ) : ℝ))]
      push_cast
      linarith
    · show (orthogonalRoute ⟨0, 0⟩ ⟨30, 30⟩ obsSquare cfgSquare
        ⟨none, none, 10⟩).points.length ≤ 6
      rw [ortho_square_eval 10 (by norm_num)]
      simp

/-- Claim C6: structural failure, never thrown — both routers are total
Lean functions (no exception channel); when the A* loop ends without
reaching the goal (queue empty or iteration cap), and when every tier of
the orthogonal cascade has zero valid candidates, the result is exactly
`{points := [from, to], success := false}`. -/
theorem c6_structural_failure (f t : Point) (obstacles : List Obstacle)
    (config : RouterConfig) (aopts : AStarRouteOptions)
    (oopts : OrthogonalRouteOptions) :
    ((aStarRun f t obstacles config aopts).1 = none →
      aStarRoute f t obstacles config aopts = ⟨[f, t], false, none⟩) ∧
    (isRouteValid [f, t] obstacles = false →
      (∀ r ∈ simpleCandidates f t oopts, isRouteValid r obstacles = false) →
      (∀ r ∈ intermediateCandidates f t, isRouteValid r obstacles = false) →
      (∀ r ∈ complexCandidates f t obstacles config, isRouteValid r obstacles = false) →
      orthogonalRoute f t obstacles config oopts = ⟨[f, t], false, none⟩) :=
  ⟨fun h => aStarRoute_failure_eq f t obstacles config aopts h,
    fun h1 h2 h3 h4 => orthogonalRoute_failure f t obstacles config oopts h1 h2 h3 h4⟩

theorem c6_structural_failure_witness :
    aStarRoute ⟨0, 0⟩ ⟨200, 0⟩ obsWall cfgWall ⟨manhattanH, 20, 1⟩ =
      ⟨[⟨0, 0⟩, ⟨200, 0⟩], false, none⟩ ∧
    orthogonalRoute ⟨0, 0⟩ ⟨200, 0⟩ obsWall cfgWall ⟨none, none, 10⟩ =
      ⟨[⟨0, 0⟩, ⟨200, 0⟩], false, none⟩ := by
  constructor
  · exact (c6_structural_failure ⟨0, 0⟩ ⟨200, 0⟩ obsWall cfgWall ⟨manhattanH, 20, 1⟩
      ⟨none, none, 10⟩).1 (by with_unfolding_all decide)
  · exact (c6_structural_failure ⟨0, 0⟩ ⟨200, 0⟩ obsWall cfgWall ⟨manhattanH, 20, 1⟩
      ⟨none, none, 10⟩).2 (by with_unfolding_all decide) (by with_unfolding_all decide)
      (by with_unfolding_all decide) (by with_unfolding_all decide)

/-- Claim C10 (implicit): on success, `aStarRoute`'s cost is the goal
node's accumulated grid cost `g` — whose parent chain satisfies the
recurrence `g = parent.g + orthogonalCost * gridSize + bendPenalty`
(the penalty exactly when the move direction differs from the parent's)
with `g = 0` at the root — while the returned points are the smoothed,
endpoint-reconnected path; the cost is therefore computed before the
post-processing and need not equal `calculateRouteCost` of the returned
points. -/
theorem c10_cost_semantics (f t : Point) (obstacles : List Obstacle)
    (config : RouterConfig) (options : AStarRouteOptions) (goal : ANode) (n : ℕ)
    (h : aStarRun f t obstacles config options = (some goal, n)) :
    (aStarRoute f t obstacles config options).cost = some ((goal.g : ℚ) : ℝ) ∧
    chainOk (aStarCtxOf f t obstacles config options) goal = true ∧
    (aStarRoute f t obstacles config options).points =
      connectEndpoints
        (smoothPath (reconstructPath goal)
          (buildObstacleGrid obstacles (calculateBounds f t obstacles config.padding)
            config.gridSize)
          config.gridSize (calculateBounds f t obstacles config.padding)) f t := by
  rw [aStarRoute_success_eq f t obstacles config options goal n h]
  exact ⟨rfl, aStarRun_chainOk f t obstacles config options goal n h, rfl⟩

theorem c10_cost_semantics_witness :
    aStarRun ⟨0, 0⟩ ⟨0, 0⟩ [] cfgTiny ⟨manhattanH, 20, 1⟩ =
      (some (.root 0 0 0 0 0 none), 1) ∧
    (aStarRoute ⟨0, 0⟩ ⟨0, 0⟩ [] cfgTiny ⟨manhattanH, 20, 1⟩).cost =
      some (((ANode.root 0 0 0 0 0 none).g : ℚ) : ℝ) ∧
    chainOk (aStarCtxOf ⟨0, 0⟩ ⟨0, 0⟩ [] cfgTiny ⟨manhattanH, 20, 1⟩)
      (.root 0 0 0 0 0 none) = true := by
  have h : aStarRun ⟨0, 0⟩ ⟨0, 0⟩ [] cfgTiny ⟨manhattanH, 20, 1⟩ =
      (some (.root 0 0 0 0 0 none), 1) := by with_unfolding_all decide
  have hc := c10_cost_semantics ⟨0, 0⟩ ⟨0, 0⟩ [] cfgTiny ⟨manhattanH, 20, 1⟩
    (.root 0 0 0 0 0 none) 1 h
  exact ⟨h, hc.1, hc.2.1⟩
